import Mathlib

/-!
Verification of the session-multiplexed streaming protocol layer of the
type-openclaw-plugin repository.

The development shallowly embeds:
* the StreamSession state machine of src/messageHandler.ts
  (class StreamSession: lazy stream_start, ack gating, token/event
  buffering, idempotent finish, idempotent failure marking);
* the module-level session registry of src/messageHandler.ts
  (sessionsByMessageId, pendingAckOrder, resolveSessionForAck,
  resolveStreamAck, failStreamSession, failAllStreamSessions);
* the reconnect backoff computation of src/connection.ts
  (scheduleReconnect and the open handler).

JavaScript strings are embedded as lists of characters; outbound sends,
which in the source return a boolean success flag, are driven by an
explicit oracle: a list of booleans consumed one per send attempt, an
exhausted oracle meaning success.  Successfully transmitted frames are
accumulated in an explicit log.  Timer callbacks (the ack deadline) are
modelled as explicit events that can only fire while the corresponding
timer is scheduled.
-/

/-- JavaScript strings, embedded as lists of characters. -/
abbrev Str := List Char

/-- Opaque structured payload of a tool event (ToolEventPayload of
src/toolEvents.ts).  Only its presence and identity matter here. -/
structure ToolEventPayload where
  kind : Str
  data : Str
  deriving DecidableEq

/-- Outbound frames of the streaming protocol, as produced by the
TypeOutboundHandler send primitives (src/outbound.ts).  The message id is
implicit for the single-session machine. -/
inductive Frame where
  | streamStart
  | streamToken (text : Str)
  | streamEvent (event : ToolEventPayload)
  | streamFinish
  deriving DecidableEq

/-- The private fields of class StreamSession
(src/messageHandler.ts, lines 1228-1239).  The pendingAck promise pair is
modelled by the boolean pendingAck (pendingAck is not null), and the
scheduled ack deadline timer by the boolean ackTimeoutSet
(ackTimeoutId is not null). -/
structure SessionState where
  failed : Bool
  started : Bool
  ready : Bool
  finishRequested : Bool
  finishSent : Bool
  lastSentLength : Nat
  pendingTokens : List Str
  pendingToolEvents : List ToolEventPayload
  pendingAck : Bool
  ackTimeoutSet : Bool
  deriving DecidableEq

/-- Field initialisers of class StreamSession. -/
def initialSession : SessionState :=
  { failed := false, started := false, ready := false,
    finishRequested := false, finishSent := false, lastSentLength := 0,
    pendingTokens := [], pendingToolEvents := [],
    pendingAck := false, ackTimeoutSet := false }

/-- A session machine: session state, the oracle of upcoming outbound
send results, and the log of successfully transmitted frames. -/
structure M where
  s : SessionState
  oracle : List Bool
  sent : List Frame
  deriving DecidableEq

/-- Fresh session machine with a given send oracle. -/
def initM (o : List Bool) : M := { s := initialSession, oracle := o, sent := [] }

namespace StreamSession

/-- One outbound send attempt: consumes the next oracle entry (an
exhausted oracle means the connection is open and the send succeeds).
On success the frame is appended to the transmission log.  Mirrors the
boolean-returning send primitives of TypeOutboundHandler backed by
TypeConnection.send. -/
def send (m : M) (f : Frame) : Bool × M :=
  match m.oracle with
  | [] => (true, { m with sent := m.sent ++ [f] })
  | b :: rest =>
    if b then (true, { m with oracle := rest, sent := m.sent ++ [f] })
    else (false, { m with oracle := rest })

/-- StreamSession.#markSendFailed (src/messageHandler.ts, lines
1440-1459): idempotent transition to the failed state, cancelling the ack
deadline, dropping the pending ack handle, clearing the deferred-finish
flag and both buffers.  The console logging is not modelled. -/
def markSendFailed (m : M) : M :=
  if m.s.failed then m
  else
    { m with s := { m.s with
        failed := true, ackTimeoutSet := false, pendingAck := false,
        finishRequested := false, pendingTokens := [], pendingToolEvents := [] } }

/-- StreamSession.#clearAckTimeout (lines 1403-1408). -/
def clearAckTimeout (m : M) : M :=
  { m with s := { m.s with ackTimeoutSet := false } }

/-- First loop of StreamSession.#flushBuffers (lines 1411-1423): flush
buffered tool events in FIFO order, breaking out and marking the session
failed at the first failed send. -/
def flushEventsLoop : List ToolEventPayload → M → M
  | [], m => m
  | e :: rest, m =>
    if m.s.failed then m
    else if (send m (Frame.streamEvent e)).1 then
      flushEventsLoop rest (send m (Frame.streamEvent e)).2
    else markSendFailed (send m (Frame.streamEvent e)).2

/-- Second loop of StreamSession.#flushBuffers (lines 1426-1436): flush
buffered text tokens in FIFO order; a failed send marks the session
failed, which stops the iteration (the source clears the array being
iterated, which terminates the for-of loop; the next iteration here
returns immediately because the session is failed). -/
def flushTokensLoop : List Str → M → M
  | [], m => m
  | t :: rest, m =>
    if m.s.failed then m
    else if (send m (Frame.streamToken t)).1 then
      flushTokensLoop rest (send m (Frame.streamToken t)).2
    else flushTokensLoop rest (markSendFailed (send m (Frame.streamToken t)).2)

/-- Clearing of the tool-event buffer (line 1424). -/
def clearEvents (m : M) : M := { m with s := { m.s with pendingToolEvents := [] } }

/-- Clearing of the token buffer (line 1437). -/
def clearTokens (m : M) : M := { m with s := { m.s with pendingTokens := [] } }

/-- StreamSession.#flushBuffers (lines 1410-1438): tool events first,
then text tokens, each buffer emptied afterwards.  The token loop
iterates over the token buffer as it stands after the event loop: after
a failure in the event loop, markSendFailed has already cleared it,
exactly as the live for-of iteration of the source observes. -/
def flushBuffers (m : M) : M :=
  clearTokens
    (flushTokensLoop (flushEventsLoop m.s.pendingToolEvents m).s.pendingTokens
      (clearEvents (flushEventsLoop m.s.pendingToolEvents m)))

/-- StreamSession.#sendFinish (lines 1385-1401). -/
def sendFinish (m : M) : M :=
  if m.s.failed then { m with s := { m.s with finishRequested := false } }
  else if (send m Frame.streamFinish).1 then
    { (send m Frame.streamFinish).2 with s :=
      { (send m Frame.streamFinish).2.s with
        finishSent := true, finishRequested := false } }
  else markSendFailed (send m Frame.streamFinish).2

/-- The ready flag assignment inside the resolve closure (line 1279). -/
def setReady (m : M) : M := { m with s := { m.s with ready := true } }

/-- The deferred finish performed at the end of the resolve closure
(lines 1281-1283). -/
def ackMaybeFinish (m : M) : M :=
  if m.s.finishRequested && !m.s.finishSent && !m.s.failed then sendFinish m else m

/-- Body of the resolve closure installed by ensureStarted (lines
1277-1284): cancel the deadline, move to ready, flush the buffers, and
perform a deferred finish when one was requested. -/
def ackResolve (m : M) : M :=
  ackMaybeFinish (flushBuffers (setReady (clearAckTimeout m)))

/-- Body of the reject closure installed by ensureStarted (lines
1285-1291): cancel the deadline and mark the session failed. -/
def ackReject (m : M) : M := markSendFailed (clearAckTimeout m)

/-- Dropping the pending ack handle (pendingAck = null). -/
def clearPendingAck (m : M) : M := { m with s := { m.s with pendingAck := false } }

/-- The field assignments after a successful stream_start transmission
(lines 1274-1300): mark started, install the ack handle, schedule the
deadline timer. -/
def startOk (m : M) : M :=
  { m with s := { m.s with started := true, pendingAck := true, ackTimeoutSet := true } }

/-- StreamSession.ensureStarted (lines 1263-1301): lazily transmit
stream_start; on success install the pending ack handle and schedule the
ack deadline timer; on failure mark the session failed. -/
def ensureStarted (m : M) : M :=
  if m.s.started || m.s.failed then m
  else if (send m Frame.streamStart).1 then startOk (send m Frame.streamStart).2
  else markSendFailed (send m Frame.streamStart).2

/-- StreamSession.onAck (lines 1306-1311): run the resolve closure and
drop the pending ack handle. -/
def onAck (m : M) : M :=
  if m.s.pendingAck then clearPendingAck (ackResolve m) else m

/-- StreamSession.onAckError (lines 1316-1321): run the reject closure
and drop the pending ack handle. -/
def onAckError (m : M) : M :=
  if m.s.pendingAck then clearPendingAck (ackReject m) else m

/-- The ack deadline timer callback (lines 1294-1300).  It can only fire
while the timer is still scheduled; it clears the timer handle and
rejects the pending ack if one is still installed. -/
def fireAckTimeout (m : M) : M :=
  if m.s.ackTimeoutSet then
    if m.s.pendingAck then clearPendingAck (ackReject (clearAckTimeout m))
    else clearAckTimeout m
  else m

/-- Tail of StreamSession.sendToken after the delta has been computed
and the session lazily started (lines 1335-1347): transmit directly when
ready, otherwise buffer the delta. -/
def sendTokenRest (m : M) (delta : Str) : M :=
  if m.s.failed then m
  else if m.s.ready then
    if (send m (Frame.streamToken delta)).1 then (send m (Frame.streamToken delta)).2
    else markSendFailed (send m (Frame.streamToken delta)).2
  else { m with s := { m.s with pendingTokens := m.s.pendingTokens ++ [delta] } }

/-- StreamSession.sendToken (lines 1327-1348): compute the delta of the
accumulated text against the length already accounted for, ignore empty
deltas, record the new length, lazily start, then either transmit
directly when ready or buffer while the ack is pending. -/
def sendToken (m : M) (fullText : Str) : M :=
  if m.s.failed || m.s.finishSent then m
  else if (fullText.drop m.s.lastSentLength).length = 0 then m
  else
    sendTokenRest
      (ensureStarted { m with s := { m.s with lastSentLength := fullText.length } })
      (fullText.drop m.s.lastSentLength)

/-- Tail of StreamSession.sendToolEvent after the lazy start (lines
1357-1370). -/
def sendToolEventRest (m : M) (event : ToolEventPayload) : M :=
  if m.s.failed then m
  else if m.s.ready then
    if (send m (Frame.streamEvent event)).1 then (send m (Frame.streamEvent event)).2
    else markSendFailed (send m (Frame.streamEvent event)).2
  else { m with s := { m.s with pendingToolEvents := m.s.pendingToolEvents ++ [event] } }

/-- StreamSession.sendToolEvent (lines 1353-1371). -/
def sendToolEvent (m : M) (event : ToolEventPayload) : M :=
  if m.s.failed || m.s.finishSent then m
  else sendToolEventRest (ensureStarted m) event

/-- StreamSession.finish (lines 1376-1383): no-op unless started and
neither failed nor already finished; request a finish and perform it at
once when the session is ready. -/
def finish (m : M) : M :=
  if !m.s.started || m.s.failed || m.s.finishSent then m
  else if !m.s.ready then { m with s := { m.s with finishRequested := true } }
  else sendFinish { m with s := { m.s with finishRequested := true } }

/-- Modelled from the spec: StreamSession.failFromServer is invoked by
failStreamSession (src/messageHandler.ts, line 916) but its definition is
not part of the sources; per the spec a server-side stream rejection or a
connection-wide failure force-fails the session, with idempotent failure
marking, cleared buffers and a cancelled ack ("once a send of any kind
fails, the session transitions to failed exactly once"), which is
exactly the markSendFailed transition. -/
def failFromServer (m : M) : M := markSendFailed m

end StreamSession

/-- The public events of a single session, as issued by the message
handler and the inbound dispatcher. -/
inductive Call where
  | sendToken (fullText : Str)
  | sendToolEvent (event : ToolEventPayload)
  | ensureStarted
  | finish
  | onAck
  | onAckError
  | fireAckTimeout
  | failFromServer
  deriving DecidableEq

/-- Event interpreter for the session machine. -/
def step (m : M) : Call → M
  | Call.sendToken t => StreamSession.sendToken m t
  | Call.sendToolEvent e => StreamSession.sendToolEvent m e
  | Call.ensureStarted => StreamSession.ensureStarted m
  | Call.finish => StreamSession.finish m
  | Call.onAck => StreamSession.onAck m
  | Call.onAckError => StreamSession.onAckError m
  | Call.fireAckTimeout => StreamSession.fireAckTimeout m
  | Call.failFromServer => StreamSession.failFromServer m

/-- Run a sequence of public events. -/
def run (m : M) (cs : List Call) : M := cs.foldl step m

/-- Concatenation of all text actually transmitted as stream tokens. -/
def tokenConcat (fs : List Frame) : Str :=
  (fs.filterMap fun f => match f with
    | Frame.streamToken t => some t
    | _ => none).flatten

/-- Number of stream_finish frames actually transmitted. -/
def countFinish (fs : List Frame) : Nat :=
  fs.countP fun f => match f with
    | Frame.streamFinish => true
    | _ => false

namespace StreamSession

theorem send_snd_s (m : M) (f : Frame) : (send m f).2.s = m.s := by
  rcases ho : m.oracle with _ | ⟨b, rest⟩
  · simp [send, ho]
  · cases b <;> simp [send, ho]

theorem send_snd_sent_of_true (m : M) (f : Frame) (h : (send m f).1 = true) :
    (send m f).2.sent = m.sent ++ [f] := by
  rcases ho : m.oracle with _ | ⟨b, rest⟩
  · simp [send, ho]
  · cases b <;> simp [send, ho] at h ⊢

theorem send_snd_sent_of_false (m : M) (f : Frame) (h : (send m f).1 = false) :
    (send m f).2.sent = m.sent := by
  rcases ho : m.oracle with _ | ⟨b, rest⟩
  · simp [send, ho] at h
  · cases b <;> simp [send, ho] at h ⊢

theorem send_nil_oracle (m : M) (f : Frame) (h : m.oracle = []) :
    send m f = (true, { m with sent := m.sent ++ [f] }) := by
  simp [send, h]

end StreamSession

theorem countFinish_append (a b : List Frame) :
    countFinish (a ++ b) = countFinish a + countFinish b :=
  List.countP_append _ _ _

theorem countFinish_nonFinish (f : Frame) (hf : f ≠ Frame.streamFinish) :
    countFinish [f] = 0 := by
  cases f <;> simp [countFinish] <;> simp at hf

/-- Safety invariant of the session machine: a failed session holds no
pending ack, no scheduled deadline, empty buffers, and no deferred
finish request; and the number of transmitted stream_finish frames is
governed by the finishSent flag. -/
def SessionInv (m : M) : Prop :=
  (m.s.failed = true →
    m.s.pendingAck = false ∧ m.s.ackTimeoutSet = false ∧
    m.s.pendingTokens = [] ∧ m.s.pendingToolEvents = [] ∧
    m.s.finishRequested = false) ∧
  countFinish m.sent = (if m.s.finishSent then 1 else 0)

namespace StreamSession

theorem inv_of_eq {m m1 : M} (hs : m1.s = m.s) (hsent : m1.sent = m.sent)
    (h : SessionInv m) : SessionInv m1 := by
  unfold SessionInv at h ⊢
  rw [hs, hsent]
  exact h

theorem inv_send {m : M} (f : Frame) (hf : f ≠ Frame.streamFinish)
    (h : SessionInv m) : SessionInv (send m f).2 := by
  unfold SessionInv at h ⊢
  rw [send_snd_s]
  cases hok : (send m f).1 with
  | false => rw [send_snd_sent_of_false m f hok]; exact h
  | true =>
    rw [send_snd_sent_of_true m f hok, countFinish_append,
      countFinish_nonFinish f hf]
    simpa using h

theorem inv_markSendFailed {m : M} (h : SessionInv m) : SessionInv (markSendFailed m) := by
  unfold markSendFailed
  split
  · exact h
  · exact ⟨fun _ => ⟨rfl, rfl, rfl, rfl, rfl⟩, h.2⟩

theorem markSendFailed_s_finishSent (m : M) :
    (markSendFailed m).s.finishSent = m.s.finishSent := by
  unfold markSendFailed; split <;> rfl

theorem markSendFailed_sent (m : M) : (markSendFailed m).sent = m.sent := by
  unfold markSendFailed; split <;> rfl

theorem inv_flushEventsLoop :
    ∀ (evs : List ToolEventPayload) (m : M), SessionInv m → SessionInv (flushEventsLoop evs m)
  | [], _, h => h
  | e :: rest, m, h => by
    unfold flushEventsLoop
    split
    · exact h
    · split
      · exact inv_flushEventsLoop rest _ (inv_send _ (by simp) h)
      · exact inv_markSendFailed (inv_send _ (by simp) h)

theorem inv_flushTokensLoop :
    ∀ (ts : List Str) (m : M), SessionInv m → SessionInv (flushTokensLoop ts m)
  | [], _, h => h
  | t :: rest, m, h => by
    unfold flushTokensLoop
    split
    · exact h
    · split
      · exact inv_flushTokensLoop rest _ (inv_send _ (by simp) h)
      · exact inv_flushTokensLoop rest _ (inv_markSendFailed (inv_send _ (by simp) h))

theorem inv_send_false {m : M} {f : Frame} (hok : (send m f).1 = false)
    (h : SessionInv m) : SessionInv (send m f).2 :=
  inv_of_eq (send_snd_s m f) (send_snd_sent_of_false m f hok) h

theorem inv_clearEvents {m : M} (h : SessionInv m) : SessionInv (clearEvents m) := by
  constructor
  · intro hf
    rcases h.1 hf with ⟨a, b, c, _, e⟩
    exact ⟨a, b, c, rfl, e⟩
  · exact h.2

theorem inv_clearTokens {m : M} (h : SessionInv m) : SessionInv (clearTokens m) := by
  constructor
  · intro hf
    rcases h.1 hf with ⟨a, b, _, d, e⟩
    exact ⟨a, b, rfl, d, e⟩
  · exact h.2

theorem inv_flushBuffers {m : M} (h : SessionInv m) : SessionInv (flushBuffers m) := by
  unfold flushBuffers
  exact inv_clearTokens
    (inv_flushTokensLoop _ _ (inv_clearEvents (inv_flushEventsLoop _ _ h)))

theorem inv_sendFinish {m : M} (hns : m.s.finishSent = false) (h : SessionInv m) :
    SessionInv (sendFinish m) := by
  unfold sendFinish
  split
  · constructor
    · intro hf
      rcases h.1 hf with ⟨a, b, c, d, _⟩
      exact ⟨a, b, c, d, rfl⟩
    · exact h.2
  · split
    · rename_i hnf hok
      constructor
      · intro hf
        have hs := send_snd_s m Frame.streamFinish
        simp only [hs] at hf
        exact absurd hf hnf
      · have hsent := send_snd_sent_of_true m Frame.streamFinish hok
        simp only [hsent, countFinish_append]
        have h2 := h.2
        rw [hns] at h2
        simp only [if_false, Bool.false_eq_true] at h2
        simp [h2, show countFinish [Frame.streamFinish] = 1 from rfl]
    · rename_i hnf hok
      exact inv_markSendFailed (inv_send_false (by simpa using hok) h)

end StreamSession

namespace StreamSession

theorem inv_clearAckTimeout {m : M} (h : SessionInv m) : SessionInv (clearAckTimeout m) := by
  constructor
  · intro hf
    rcases h.1 hf with ⟨a, _, c, d, e⟩
    exact ⟨a, rfl, c, d, e⟩
  · exact h.2

theorem inv_setReady {m : M} (h : SessionInv m) : SessionInv (setReady m) := by
  constructor
  · intro hf
    exact h.1 hf
  · exact h.2

theorem inv_clearPendingAck {m : M} (h : SessionInv m) : SessionInv (clearPendingAck m) := by
  constructor
  · intro hf
    rcases h.1 hf with ⟨_, b, c, d, e⟩
    exact ⟨rfl, b, c, d, e⟩
  · exact h.2

theorem inv_ackMaybeFinish {m : M} (h : SessionInv m) : SessionInv (ackMaybeFinish m) := by
  unfold ackMaybeFinish
  split
  · rename_i hg
    have hns : m.s.finishSent = false := by
      rcases Bool.and_eq_true_iff.1 hg with ⟨hg1, _⟩
      rcases Bool.and_eq_true_iff.1 hg1 with ⟨_, hg2⟩
      simpa using hg2
    exact inv_sendFinish hns h
  · exact h

theorem inv_ackResolve {m : M} (h : SessionInv m) : SessionInv (ackResolve m) :=
  inv_ackMaybeFinish (inv_flushBuffers (inv_setReady (inv_clearAckTimeout h)))

theorem inv_ackReject {m : M} (h : SessionInv m) : SessionInv (ackReject m) :=
  inv_markSendFailed (inv_clearAckTimeout h)

theorem inv_onAck {m : M} (h : SessionInv m) : SessionInv (onAck m) := by
  unfold onAck
  split
  · exact inv_clearPendingAck (inv_ackResolve h)
  · exact h

theorem inv_onAckError {m : M} (h : SessionInv m) : SessionInv (onAckError m) := by
  unfold onAckError
  split
  · exact inv_clearPendingAck (inv_ackReject h)
  · exact h

theorem inv_fireAckTimeout {m : M} (h : SessionInv m) : SessionInv (fireAckTimeout m) := by
  unfold fireAckTimeout
  split
  · split
    · exact inv_clearPendingAck (inv_ackReject (inv_clearAckTimeout h))
    · exact inv_clearAckTimeout h
  · exact h

theorem inv_ensureStarted {m : M} (h : SessionInv m) : SessionInv (ensureStarted m) := by
  unfold ensureStarted
  split
  · exact h
  · rename_i hg
    have hnf : m.s.failed = false := by
      simp only [Bool.or_eq_true, not_or] at hg
      simpa using hg.2
    split
    · rename_i hok
      have hinv2 := inv_send Frame.streamStart (by simp) h
      constructor
      · intro hf
        have hred : (startOk (send m Frame.streamStart).2).s.failed = m.s.failed := by
          rw [show (startOk (send m Frame.streamStart).2).s.failed
                = (send m Frame.streamStart).2.s.failed from rfl, send_snd_s]
        rw [hred, hnf] at hf
        exact absurd hf (by simp)
      · exact hinv2.2
    · rename_i hok
      exact inv_markSendFailed (inv_send_false (by simpa using hok) h)

theorem inv_sendTokenRest {m : M} {delta : Str} (h : SessionInv m) :
    SessionInv (sendTokenRest m delta) := by
  unfold sendTokenRest
  split
  · exact h
  · rename_i hnf
    split
    · split
      · exact inv_send _ (by simp) h
      · rename_i hok
        exact inv_markSendFailed (inv_send_false (by simpa using hok) h)
    · constructor
      · intro hf
        exact absurd hf hnf
      · exact h.2

theorem inv_sendToken {m : M} {t : Str} (h : SessionInv m) :
    SessionInv (sendToken m t) := by
  unfold sendToken
  split
  · exact h
  · split
    · exact h
    · rename_i hg _
      have hstep : SessionInv
          { m with s := { m.s with lastSentLength := t.length } } := by
        constructor
        · intro hf
          have hnf : m.s.failed = false := by
            simp only [Bool.or_eq_true, not_or] at hg
            simpa using hg.1
          simp only at hf
          rw [hnf] at hf
          simp at hf
        · exact h.2
      exact inv_sendTokenRest (inv_ensureStarted hstep)

theorem inv_sendToolEventRest {m : M} {e : ToolEventPayload} (h : SessionInv m) :
    SessionInv (sendToolEventRest m e) := by
  unfold sendToolEventRest
  split
  · exact h
  · rename_i hnf
    split
    · split
      · exact inv_send _ (by simp) h
      · rename_i hok
        exact inv_markSendFailed (inv_send_false (by simpa using hok) h)
    · constructor
      · intro hf
        exact absurd hf hnf
      · exact h.2

theorem inv_sendToolEvent {m : M} {e : ToolEventPayload} (h : SessionInv m) :
    SessionInv (sendToolEvent m e) := by
  unfold sendToolEvent
  split
  · exact h
  · exact inv_sendToolEventRest (inv_ensureStarted h)

theorem inv_finish {m : M} (h : SessionInv m) : SessionInv (finish m) := by
  unfold finish
  split
  · exact h
  · rename_i hg
    simp only [Bool.or_eq_true, not_or, Bool.not_eq_true] at hg
    have hnf : m.s.failed = false := hg.1.2
    have hns : m.s.finishSent = false := hg.2
    have hstep : SessionInv { m with s := { m.s with finishRequested := true } } := by
      constructor
      · intro hf
        simp only at hf
        rw [hnf] at hf
        simp at hf
      · exact h.2
    split
    · exact hstep
    · exact inv_sendFinish (by simpa using hns) hstep

end StreamSession

theorem inv_step (m : M) (c : Call) (h : SessionInv m) : SessionInv (step m c) := by
  cases c with
  | sendToken t => exact StreamSession.inv_sendToken h
  | sendToolEvent e => exact StreamSession.inv_sendToolEvent h
  | ensureStarted => exact StreamSession.inv_ensureStarted h
  | finish => exact StreamSession.inv_finish h
  | onAck => exact StreamSession.inv_onAck h
  | onAckError => exact StreamSession.inv_onAckError h
  | fireAckTimeout => exact StreamSession.inv_fireAckTimeout h
  | failFromServer => exact StreamSession.inv_markSendFailed h

theorem inv_run (m : M) (cs : List Call) (h : SessionInv m) : SessionInv (run m cs) := by
  induction cs generalizing m with
  | nil => exact h
  | cons c rest ih => exact ih (step m c) (inv_step m c h)

theorem inv_initM (o : List Bool) : SessionInv (initM o) := by
  constructor
  · intro hf
    simp [initM, initialSession] at hf
  · simp [initM, initialSession, countFinish]

namespace StreamSession

theorem markSendFailed_of_failed {m : M} (hf : m.s.failed = true) :
    markSendFailed m = m := by
  unfold markSendFailed
  simp [hf]

theorem step_of_failed {m : M} (hinv : SessionInv m) (hf : m.s.failed = true)
    (c : Call) : step m c = m := by
  rcases hinv.1 hf with ⟨hpa, hts, _, _, _⟩
  cases c with
  | sendToken t => unfold step sendToken; simp [hf]
  | sendToolEvent e => unfold step sendToolEvent; simp [hf]
  | ensureStarted => unfold step ensureStarted; simp [hf]
  | finish => unfold step finish; simp [hf]
  | onAck => unfold step onAck; simp [hpa]
  | onAckError => unfold step onAckError; simp [hpa]
  | fireAckTimeout => unfold step fireAckTimeout; simp [hts]
  | failFromServer =>
    unfold step failFromServer
    exact markSendFailed_of_failed hf

end StreamSession

/-- C3.  In every run of the session machine, no matter how often finish
is called, in which order the public operations interleave, and which
outbound sends succeed or fail, at most one stream_finish frame is ever
transmitted (the source guards finish and the deferred finish by the
started, failed and finishSent flags; a finish transmission failure
marks the session failed so that no retry is possible).  The operations
are total functions, so no call can throw. -/
theorem finish_transmits_at_most_once (o : List Bool) (cs : List Call) :
    countFinish (run (initM o) cs).sent ≤ 1 := by
  have h := (inv_run (initM o) cs (inv_initM o)).2
  rw [h]
  split <;> simp

/-- C7.  When a run of the session machine has reached the failed state,
every further public operation leaves the machine completely unchanged
(in particular nothing further is sent and no oracle entry is consumed),
both pending buffers are empty, and the failure-marking step is a no-op
on an already-failed session (so the transition into failed happened
exactly once). -/
theorem failed_session_is_inert (o : List Bool) (cs : List Call) (c : Call)
    (h : (run (initM o) cs).s.failed = true) :
    step (run (initM o) cs) c = run (initM o) cs ∧
    (run (initM o) cs).s.pendingTokens = [] ∧
    (run (initM o) cs).s.pendingToolEvents = [] ∧
    StreamSession.markSendFailed (run (initM o) cs) = run (initM o) cs := by
  have hinv := inv_run (initM o) cs (inv_initM o)
  rcases hinv.1 h with ⟨_, _, htok, hevt, _⟩
  exact ⟨StreamSession.step_of_failed hinv h c, htok, hevt,
    StreamSession.markSendFailed_of_failed h⟩

/-- Witness for C7: the start transmission of the first token fails
(oracle reports a closed connection), the session is failed, and a
subsequent finish call leaves the machine untouched. -/
theorem failed_session_is_inert_witness :
    (run (initM [false]) [Call.sendToken ['h', 'i']]).s.failed = true ∧
    (step (run (initM [false]) [Call.sendToken ['h', 'i']]) Call.finish =
        run (initM [false]) [Call.sendToken ['h', 'i']] ∧
      (run (initM [false]) [Call.sendToken ['h', 'i']]).s.pendingTokens = [] ∧
      (run (initM [false]) [Call.sendToken ['h', 'i']]).s.pendingToolEvents = [] ∧
      StreamSession.markSendFailed (run (initM [false]) [Call.sendToken ['h', 'i']]) =
        run (initM [false]) [Call.sendToken ['h', 'i']]) :=
  ⟨by decide, failed_session_is_inert [false] [Call.sendToken ['h', 'i']]
    Call.finish (by decide)⟩

/-- C10.  A sendToken call whose accumulated text is no longer than the
length already recorded as transmitted is a complete no-op: the machine
(state, buffers, recorded length, oracle and transmission log) is
unchanged, so the session is neither started nor failed by the call. -/
theorem sendToken_regression_is_noop (m : M) (t : Str)
    (h : t.length ≤ m.s.lastSentLength) :
    StreamSession.sendToken m t = m := by
  unfold StreamSession.sendToken
  split
  · rfl
  · split
    · rfl
    · rename_i hlen
      exfalso
      apply hlen
      rw [List.length_drop]
      omega

/-- Witness for C10: after sending accumulated text of length two, a
regressed accumulated text of length one is silently dropped. -/
theorem sendToken_regression_is_noop_witness :
    (['x'] : Str).length ≤ (run (initM []) [Call.sendToken ['h', 'i']]).s.lastSentLength ∧
    StreamSession.sendToken (run (initM []) [Call.sendToken ['h', 'i']]) ['x'] =
      run (initM []) [Call.sendToken ['h', 'i']] :=
  ⟨by decide, sendToken_regression_is_noop _ ['x'] (by decide)⟩

namespace StreamSession

theorem clearAckTimeout_idem (m : M) :
    clearAckTimeout (clearAckTimeout m) = clearAckTimeout m := rfl

end StreamSession

/-- C4.  If a session is awaiting its start acknowledgement (pending ack
installed, deadline timer scheduled, not failed) and the deadline timer
fires before onAck or onAckError ran, the resulting machine equals the
one produced by an explicit rejection (onAckError), the session is
failed, and both pending buffers are empty afterwards. -/
theorem ackTimeout_fails_like_rejection (m : M)
    (h1 : m.s.failed = false) (h2 : m.s.pendingAck = true)
    (h3 : m.s.ackTimeoutSet = true) :
    StreamSession.fireAckTimeout m = StreamSession.onAckError m ∧
    (StreamSession.fireAckTimeout m).s.failed = true ∧
    (StreamSession.fireAckTimeout m).s.pendingTokens = [] ∧
    (StreamSession.fireAckTimeout m).s.pendingToolEvents = [] := by
  unfold StreamSession.fireAckTimeout StreamSession.onAckError
  rw [h2, h3]
  simp only [if_true]
  unfold StreamSession.ackReject
  rw [StreamSession.clearAckTimeout_idem]
  refine ⟨rfl, ?_, ?_, ?_⟩ <;>
    simp [StreamSession.clearPendingAck, StreamSession.markSendFailed,
      StreamSession.clearAckTimeout, h1]

/-- Witness for C4: a session that sent its first token and is awaiting
the acknowledgement; the deadline fires. -/
theorem ackTimeout_fails_like_rejection_witness :
    ((run (initM []) [Call.sendToken ['h', 'i']]).s.failed = false ∧
      (run (initM []) [Call.sendToken ['h', 'i']]).s.pendingAck = true ∧
      (run (initM []) [Call.sendToken ['h', 'i']]).s.ackTimeoutSet = true) ∧
    (StreamSession.fireAckTimeout (run (initM []) [Call.sendToken ['h', 'i']]) =
        StreamSession.onAckError (run (initM []) [Call.sendToken ['h', 'i']]) ∧
      (StreamSession.fireAckTimeout (run (initM []) [Call.sendToken ['h', 'i']])).s.failed = true ∧
      (StreamSession.fireAckTimeout (run (initM []) [Call.sendToken ['h', 'i']])).s.pendingTokens = [] ∧
      (StreamSession.fireAckTimeout (run (initM []) [Call.sendToken ['h', 'i']])).s.pendingToolEvents = []) :=
  ⟨⟨by decide, by decide, by decide⟩,
    ackTimeout_fails_like_rejection _ (by decide) (by decide) (by decide)⟩

namespace StreamSession

theorem flushEventsLoop_nil_oracle :
    ∀ (evs : List ToolEventPayload) (m : M), m.oracle = [] → m.s.failed = false →
      flushEventsLoop evs m = { m with sent := m.sent ++ evs.map Frame.streamEvent }
  | [], m, _, _ => by simp [flushEventsLoop]
  | e :: rest, m, ho, hf => by
    unfold flushEventsLoop
    rw [send_nil_oracle m (Frame.streamEvent e) ho]
    simp only [hf, Bool.false_eq_true, if_false, if_true]
    rw [flushEventsLoop_nil_oracle rest
      { s := m.s, oracle := m.oracle, sent := m.sent ++ [Frame.streamEvent e] } ho hf]
    simp

theorem flushTokensLoop_nil_oracle :
    ∀ (ts : List Str) (m : M), m.oracle = [] → m.s.failed = false →
      flushTokensLoop ts m = { m with sent := m.sent ++ ts.map Frame.streamToken }
  | [], m, _, _ => by simp [flushTokensLoop]
  | t :: rest, m, ho, hf => by
    unfold flushTokensLoop
    rw [send_nil_oracle m (Frame.streamToken t) ho]
    simp only [hf, Bool.false_eq_true, if_false, if_true]
    rw [flushTokensLoop_nil_oracle rest
      { s := m.s, oracle := m.oracle, sent := m.sent ++ [Frame.streamToken t] } ho hf]
    simp

theorem flushBuffers_nil_oracle (m : M) (ho : m.oracle = []) (hf : m.s.failed = false) :
    flushBuffers m =
      { m with
        s := { m.s with pendingTokens := [], pendingToolEvents := [] },
        sent := m.sent ++ m.s.pendingToolEvents.map Frame.streamEvent
          ++ m.s.pendingTokens.map Frame.streamToken } := by
  unfold flushBuffers
  rw [flushEventsLoop_nil_oracle m.s.pendingToolEvents m ho hf]
  dsimp only [clearEvents]
  rw [flushTokensLoop_nil_oracle m.s.pendingTokens
    { s := { m.s with pendingToolEvents := [] }, oracle := m.oracle,
      sent := m.sent ++ m.s.pendingToolEvents.map Frame.streamEvent } ho hf]
  simp [clearTokens]

end StreamSession

/-- Emission-only calls: sendToken and sendToolEvent. -/
def isEmission : Call → Bool
  | Call.sendToken _ => true
  | Call.sendToolEvent _ => true
  | _ => false

/-- The tool events carried by a call sequence, in producer order. -/
def eventsOf (cs : List Call) : List ToolEventPayload :=
  cs.filterMap fun c => match c with
    | Call.sendToolEvent e => some e
    | _ => none

theorem eventsOf_cons (c : Call) (rest : List Call) :
    eventsOf (c :: rest) = eventsOf [c] ++ eventsOf rest := by
  cases c <;> simp [eventsOf]

namespace StreamSession

theorem ensureStarted_nil_fields (m : M) (ho : m.oracle = []) (hf : m.s.failed = false)
    (hsp : m.s.started = m.s.pendingAck) :
    (ensureStarted m).oracle = [] ∧ (ensureStarted m).s.failed = false ∧
    (ensureStarted m).s.ready = m.s.ready ∧
    (ensureStarted m).s.finishSent = m.s.finishSent ∧
    (ensureStarted m).s.finishRequested = m.s.finishRequested ∧
    (ensureStarted m).s.started = true ∧ (ensureStarted m).s.pendingAck = true ∧
    (ensureStarted m).s.pendingTokens = m.s.pendingTokens ∧
    (ensureStarted m).s.pendingToolEvents = m.s.pendingToolEvents ∧
    (ensureStarted m).s.lastSentLength = m.s.lastSentLength := by
  unfold ensureStarted
  rw [send_nil_oracle m Frame.streamStart ho]
  by_cases hst : m.s.started = true
  · rw [if_pos (by simp [hst])]
    exact ⟨ho, hf, rfl, rfl, rfl, hst, hsp ▸ hst, rfl, rfl, rfl⟩
  · have hst2 : m.s.started = false := by simpa using hst
    rw [if_neg (by simp [hst2, hf])]
    dsimp only
    rw [if_pos rfl]
    simp [startOk, ho, hf]

end StreamSession

theorem emit_step_good (m : M) (c : Call) (hc : isEmission c = true)
    (ho : m.oracle = []) (hf : m.s.failed = false) (hr : m.s.ready = false)
    (hfs : m.s.finishSent = false) (hfr : m.s.finishRequested = false)
    (hsp : m.s.started = m.s.pendingAck) :
    (step m c).oracle = [] ∧ (step m c).s.failed = false ∧
    (step m c).s.ready = false ∧ (step m c).s.finishSent = false ∧
    (step m c).s.finishRequested = false ∧
    (step m c).s.started = (step m c).s.pendingAck ∧
    (step m c).s.pendingToolEvents = m.s.pendingToolEvents ++ eventsOf [c] := by
  cases c with
  | sendToken t =>
    simp only [step]
    unfold StreamSession.sendToken
    rw [if_neg (by simp [hf, hfs])]
    by_cases hd : (t.drop m.s.lastSentLength).length = 0
    · rw [if_pos hd]
      exact ⟨ho, hf, hr, hfs, hfr, hsp, by simp [eventsOf]⟩
    · rw [if_neg hd]
      have hes := StreamSession.ensureStarted_nil_fields
        { m with s := { m.s with lastSentLength := t.length } } ho hf hsp
      rcases hes with ⟨e1, e2, e3, e4, e5, e6, e7, e8, e9, _⟩
      unfold StreamSession.sendTokenRest
      rw [if_neg (by simp [e2]), if_neg (by rw [e3]; simp [hr])]
      dsimp only
      exact ⟨e1, e2, e3.trans hr, e4.trans hfs, e5.trans hfr, e6.trans e7.symm,
        by rw [e9]; simp [eventsOf]⟩
  | sendToolEvent ev =>
    simp only [step]
    unfold StreamSession.sendToolEvent
    rw [if_neg (by simp [hf, hfs])]
    have hes := StreamSession.ensureStarted_nil_fields m ho hf hsp
    rcases hes with ⟨e1, e2, e3, e4, e5, e6, e7, e8, e9, _⟩
    unfold StreamSession.sendToolEventRest
    rw [if_neg (by simp [e2]), if_neg (by rw [e3]; simp [hr])]
    dsimp only
    exact ⟨e1, e2, e3.trans hr, e4.trans hfs, e5.trans hfr, e6.trans e7.symm,
      by rw [e9]; simp [eventsOf]⟩
  | ensureStarted => simp [isEmission] at hc
  | finish => simp [isEmission] at hc
  | onAck => simp [isEmission] at hc
  | onAckError => simp [isEmission] at hc
  | fireAckTimeout => simp [isEmission] at hc
  | failFromServer => simp [isEmission] at hc

theorem emit_run_good :
    ∀ (cs : List Call) (m : M), (∀ c ∈ cs, isEmission c = true) →
    m.oracle = [] → m.s.failed = false → m.s.ready = false →
    m.s.finishSent = false → m.s.finishRequested = false →
    m.s.started = m.s.pendingAck →
    (run m cs).oracle = [] ∧ (run m cs).s.failed = false ∧
    (run m cs).s.ready = false ∧ (run m cs).s.finishSent = false ∧
    (run m cs).s.finishRequested = false ∧
    (run m cs).s.started = (run m cs).s.pendingAck ∧
    (run m cs).s.pendingToolEvents = m.s.pendingToolEvents ++ eventsOf cs
  | [], m, _, ho, hf, hr, hfs, hfr, hsp => by
    exact ⟨ho, hf, hr, hfs, hfr, hsp, by simp [run, eventsOf]⟩
  | c :: rest, m, hcs, ho, hf, hr, hfs, hfr, hsp => by
    have h1 := emit_step_good m c (hcs c (by simp)) ho hf hr hfs hfr hsp
    rcases h1 with ⟨e1, e2, e3, e4, e5, e6, e7⟩
    have h2 := emit_run_good rest (step m c) (fun c hc => hcs c (by simp [hc]))
      e1 e2 e3 e4 e5 e6
    rcases h2 with ⟨f1, f2, f3, f4, f5, f6, f7⟩
    refine ⟨f1, f2, f3, f4, f5, f6, ?_⟩
    show (run (step m c) rest).s.pendingToolEvents = _
    rw [f7, e7, List.append_assoc, ← eventsOf_cons c rest]

/-- C5.  For any interleaving of sendToken and sendToolEvent calls made
before the acknowledgement (all sends succeeding), a session still
awaiting its ack is started; acknowledgement success turns it ready,
cancels the deadline timer, leaves it unfailed, and flushes the buffers
in FIFO order with all buffered structured events (exactly the tool
events of the interleaving, in producer order) transmitted before any
buffered text fragment. -/
theorem ack_success_flushes_events_before_tokens (cs : List Call)
    (hc : ∀ c ∈ cs, isEmission c = true)
    (hpa : (run (initM []) cs).s.pendingAck = true) :
    (run (initM []) cs).s.started = true ∧
    (StreamSession.onAck (run (initM []) cs)).s.ready = true ∧
    (StreamSession.onAck (run (initM []) cs)).s.ackTimeoutSet = false ∧
    (StreamSession.onAck (run (initM []) cs)).s.failed = false ∧
    (StreamSession.onAck (run (initM []) cs)).s.pendingToolEvents = [] ∧
    (StreamSession.onAck (run (initM []) cs)).s.pendingTokens = [] ∧
    (StreamSession.onAck (run (initM []) cs)).sent =
      (run (initM []) cs).sent
        ++ (eventsOf cs).map Frame.streamEvent
        ++ ((run (initM []) cs).s.pendingTokens).map Frame.streamToken := by
  obtain ⟨f1, f2, f3, f4, f5, f6, f7⟩ :=
    emit_run_good cs (initM []) hc rfl rfl rfl rfl rfl rfl
  set m := run (initM []) cs with hm
  have hstart : m.s.started = true := by rw [f6, hpa]
  have hres : StreamSession.onAck m = StreamSession.clearPendingAck
      (StreamSession.ackMaybeFinish (StreamSession.flushBuffers
        (StreamSession.setReady (StreamSession.clearAckTimeout m)))) := by
    unfold StreamSession.onAck StreamSession.ackResolve
    rw [if_pos hpa]
  have hY1 : (StreamSession.setReady (StreamSession.clearAckTimeout m)).oracle = [] := f1
  have hY2 : (StreamSession.setReady (StreamSession.clearAckTimeout m)).s.failed = false := f2
  rw [hres, StreamSession.flushBuffers_nil_oracle _ hY1 hY2]
  unfold StreamSession.ackMaybeFinish
  rw [if_neg (by simp [StreamSession.setReady, StreamSession.clearAckTimeout, f5])]
  refine ⟨hstart, ?_, ?_, ?_, ?_, ?_, ?_⟩ <;>
    simp [StreamSession.clearPendingAck, StreamSession.setReady,
      StreamSession.clearAckTimeout, f2, f7, initM, initialSession]

/-- Witness for C5: one tool event, one token, one more tool event before
the acknowledgement arrives. -/
theorem ack_success_flushes_events_before_tokens_witness :
    ((∀ c ∈ [Call.sendToolEvent ⟨['t'], []⟩, Call.sendToken ['h', 'i'],
        Call.sendToolEvent ⟨['u'], []⟩], isEmission c = true) ∧
      (run (initM []) [Call.sendToolEvent ⟨['t'], []⟩, Call.sendToken ['h', 'i'],
        Call.sendToolEvent ⟨['u'], []⟩]).s.pendingAck = true) ∧
    ((run (initM []) [Call.sendToolEvent ⟨['t'], []⟩, Call.sendToken ['h', 'i'],
        Call.sendToolEvent ⟨['u'], []⟩]).s.started = true ∧
      (StreamSession.onAck (run (initM []) [Call.sendToolEvent ⟨['t'], []⟩,
        Call.sendToken ['h', 'i'], Call.sendToolEvent ⟨['u'], []⟩])).s.ready = true ∧
      (StreamSession.onAck (run (initM []) [Call.sendToolEvent ⟨['t'], []⟩,
        Call.sendToken ['h', 'i'], Call.sendToolEvent ⟨['u'], []⟩])).s.ackTimeoutSet = false ∧
      (StreamSession.onAck (run (initM []) [Call.sendToolEvent ⟨['t'], []⟩,
        Call.sendToken ['h', 'i'], Call.sendToolEvent ⟨['u'], []⟩])).s.failed = false ∧
      (StreamSession.onAck (run (initM []) [Call.sendToolEvent ⟨['t'], []⟩,
        Call.sendToken ['h', 'i'], Call.sendToolEvent ⟨['u'], []⟩])).s.pendingToolEvents = [] ∧
      (StreamSession.onAck (run (initM []) [Call.sendToolEvent ⟨['t'], []⟩,
        Call.sendToken ['h', 'i'], Call.sendToolEvent ⟨['u'], []⟩])).s.pendingTokens = [] ∧
      (StreamSession.onAck (run (initM []) [Call.sendToolEvent ⟨['t'], []⟩,
        Call.sendToken ['h', 'i'], Call.sendToolEvent ⟨['u'], []⟩])).sent =
        (run (initM []) [Call.sendToolEvent ⟨['t'], []⟩, Call.sendToken ['h', 'i'],
          Call.sendToolEvent ⟨['u'], []⟩]).sent
          ++ (eventsOf [Call.sendToolEvent ⟨['t'], []⟩, Call.sendToken ['h', 'i'],
            Call.sendToolEvent ⟨['u'], []⟩]).map Frame.streamEvent
          ++ ((run (initM []) [Call.sendToolEvent ⟨['t'], []⟩, Call.sendToken ['h', 'i'],
            Call.sendToolEvent ⟨['u'], []⟩]).s.pendingTokens).map Frame.streamToken) :=
  ⟨⟨by decide, by decide⟩,
    ack_success_flushes_events_before_tokens
      [Call.sendToolEvent ⟨['t'], []⟩, Call.sendToken ['h', 'i'],
        Call.sendToolEvent ⟨['u'], []⟩] (by decide) (by decide)⟩

theorem tokenConcat_append (a b : List Frame) :
    tokenConcat (a ++ b) = tokenConcat a ++ tokenConcat b := by
  simp [tokenConcat]

theorem tokenConcat_single_token (d : Str) :
    tokenConcat [Frame.streamToken d] = d := by
  simp [tokenConcat]

theorem tokenConcat_map_token (l : List Str) :
    tokenConcat (l.map Frame.streamToken) = l.flatten := by
  induction l with
  | nil => rfl
  | cons t rest ih => simp_all [tokenConcat]

theorem tokenConcat_map_event (l : List ToolEventPayload) :
    tokenConcat (l.map Frame.streamEvent) = [] := by
  induction l with
  | nil => rfl
  | cons e rest ih => simp_all [tokenConcat]

namespace StreamSession

theorem tokenConcat_ensureStarted (m : M) :
    tokenConcat (ensureStarted m).sent = tokenConcat m.sent := by
  unfold ensureStarted
  split
  · rfl
  · split
    · rename_i hok
      rw [show (startOk (send m Frame.streamStart).2).sent
            = (send m Frame.streamStart).2.sent from rfl,
        send_snd_sent_of_true m _ hok, tokenConcat_append]
      simp [tokenConcat]
    · rename_i hok
      rw [markSendFailed_sent, send_snd_sent_of_false m _ (by simpa using hok)]

end StreamSession

/-- Buffering-phase invariant for the delta-streaming argument: the
session has not yet become ready, every transmitted frame so far carries
no token text, the token buffer holds exactly the accumulated text, and
the recorded length matches it. -/
def IBuf (m : M) (acc : Str) : Prop :=
  m.oracle = [] ∧ m.s.failed = false ∧ m.s.finishSent = false ∧
  m.s.finishRequested = false ∧ m.s.ready = false ∧
  m.s.started = m.s.pendingAck ∧
  m.s.lastSentLength = acc.length ∧
  tokenConcat m.sent = [] ∧ m.s.pendingTokens.flatten = acc

/-- Ready-phase invariant: the token buffer is empty and the transmitted
token frames concatenate exactly to the accumulated text. -/
def IReady (m : M) (acc : Str) : Prop :=
  m.oracle = [] ∧ m.s.failed = false ∧ m.s.finishSent = false ∧
  m.s.finishRequested = false ∧ m.s.ready = true ∧ m.s.started = true ∧
  m.s.lastSentLength = acc.length ∧
  tokenConcat m.sent = acc ∧ m.s.pendingTokens = []

theorem ibuf_initM : IBuf (initM []) [] := by
  refine ⟨rfl, rfl, rfl, rfl, rfl, rfl, rfl, rfl, rfl⟩

theorem prefix_drop_append {acc t : Str} (h : acc <+: t) :
    acc ++ t.drop acc.length = t := by
  obtain ⟨u, hu⟩ := h
  rw [← hu, List.drop_left]

theorem ibuf_sendToken {m : M} {acc : Str} (h : IBuf m acc) (t : Str)
    (hp : acc <+: t) : IBuf (step m (Call.sendToken t)) t := by
  obtain ⟨ho, hf, hfs, hfr, hr, hsp, hl, hc, hb⟩ := h
  simp only [step]
  unfold StreamSession.sendToken
  rw [if_neg (by simp [hf, hfs])]
  by_cases hd : (t.drop m.s.lastSentLength).length = 0
  · rw [if_pos hd]
    have hlen : t.length ≤ acc.length := by
      rw [List.length_drop, hl] at hd
      omega
    have heq : acc = t := List.IsPrefix.eq_of_length_le hp hlen
    rw [← heq]
    exact ⟨ho, hf, hfs, hfr, hr, hsp, hl, hc, hb⟩
  · rw [if_neg hd]
    have hes := StreamSession.ensureStarted_nil_fields
      { m with s := { m.s with lastSentLength := t.length } } ho hf hsp
    rcases hes with ⟨e1, e2, e3, e4, e5, e6, e7, e8, e9, e10⟩
    unfold StreamSession.sendTokenRest
    rw [if_neg (by simp [e2]), if_neg (by rw [e3]; simp [hr])]
    refine ⟨e1, e2, e4.trans hfs, e5.trans hfr, e3.trans hr,
      e6.trans e7.symm, e10, ?_, ?_⟩
    · show tokenConcat (StreamSession.ensureStarted _).sent = []
      rw [StreamSession.tokenConcat_ensureStarted]
      exact hc
    · show ((StreamSession.ensureStarted
          { m with s := { m.s with lastSentLength := t.length } }).s.pendingTokens
          ++ [t.drop m.s.lastSentLength]).flatten = t
      rw [e8]
      show (m.s.pendingTokens ++ [t.drop m.s.lastSentLength]).flatten = t
      rw [List.flatten_append, hb, hl]
      simpa using prefix_drop_append hp

theorem ibuf_onAck {m : M} {acc : Str} (h : IBuf m acc)
    (hpa : m.s.pendingAck = true) : IReady (step m Call.onAck) acc := by
  obtain ⟨ho, hf, hfs, hfr, hr, hsp, hl, hc, hb⟩ := h
  simp only [step]
  unfold StreamSession.onAck StreamSession.ackResolve
  rw [if_pos hpa]
  have hY1 : (StreamSession.setReady (StreamSession.clearAckTimeout m)).oracle = [] := ho
  have hY2 : (StreamSession.setReady (StreamSession.clearAckTimeout m)).s.failed = false := hf
  rw [StreamSession.flushBuffers_nil_oracle _ hY1 hY2]
  unfold StreamSession.ackMaybeFinish
  rw [if_neg (by simp [StreamSession.setReady, StreamSession.clearAckTimeout, hfr])]
  refine ⟨ho, hf, hfs, hfr, rfl, ?_, hl, ?_, rfl⟩
  · show m.s.started = true
    rw [hsp, hpa]
  · show tokenConcat (m.sent ++ _ ++ _) = acc
    rw [tokenConcat_append, tokenConcat_append, hc]
    show [] ++ (tokenConcat (List.map Frame.streamEvent m.s.pendingToolEvents)
      ++ tokenConcat (List.map Frame.streamToken m.s.pendingTokens)) = acc
    rw [tokenConcat_map_event, tokenConcat_map_token, hb]
    simp

theorem iready_sendToken {m : M} {acc : Str} (h : IReady m acc) (t : Str)
    (hp : acc <+: t) : IReady (step m (Call.sendToken t)) t := by
  obtain ⟨ho, hf, hfs, hfr, hr, hst, hl, hc, hb⟩ := h
  simp only [step]
  unfold StreamSession.sendToken
  rw [if_neg (by simp [hf, hfs])]
  by_cases hd : (t.drop m.s.lastSentLength).length = 0
  · rw [if_pos hd]
    have hlen : t.length ≤ acc.length := by
      rw [List.length_drop, hl] at hd
      omega
    have heq : acc = t := List.IsPrefix.eq_of_length_le hp hlen
    rw [← heq]
    exact ⟨ho, hf, hfs, hfr, hr, hst, hl, hc, hb⟩
  · rw [if_neg hd]
    have hnoop : StreamSession.ensureStarted
        { m with s := { m.s with lastSentLength := t.length } } =
        { m with s := { m.s with lastSentLength := t.length } } := by
      unfold StreamSession.ensureStarted
      rw [if_pos (by simp [hst])]
    rw [hnoop]
    unfold StreamSession.sendTokenRest
    rw [if_neg (by simp [hf]), if_pos (by simpa using hr)]
    rw [StreamSession.send_nil_oracle
      { m with s := { m.s with lastSentLength := t.length } }
      (Frame.streamToken (t.drop m.s.lastSentLength)) ho]
    rw [if_pos rfl]
    refine ⟨ho, hf, hfs, hfr, hr, hst, rfl, ?_, hb⟩
    show tokenConcat (m.sent ++ [Frame.streamToken (t.drop m.s.lastSentLength)]) = t
    rw [tokenConcat_append, hc, tokenConcat_single_token, hl]
    exact prefix_drop_append hp

theorem ibuf_run :
    ∀ (ts : List Str) (m : M) (acc : Str), IBuf m acc →
      List.Chain (· <+: ·) acc ts →
      IBuf (run m (ts.map Call.sendToken)) (ts.getLastD acc)
  | [], _, _, h, _ => h
  | t :: rest, m, acc, h, hch => by
    rw [List.chain_cons] at hch
    have h1 := ibuf_sendToken h t hch.1
    have h2 := ibuf_run rest (step m (Call.sendToken t)) t h1 hch.2
    rw [List.getLastD_cons]
    exact h2

theorem iready_run :
    ∀ (ts : List Str) (m : M) (acc : Str), IReady m acc →
      List.Chain (· <+: ·) acc ts →
      IReady (run m (ts.map Call.sendToken)) (ts.getLastD acc)
  | [], _, _, h, _ => h
  | t :: rest, m, acc, h, hch => by
    rw [List.chain_cons] at hch
    have h1 := iready_sendToken h t hch.1
    have h2 := iready_run rest (step m (Call.sendToken t)) t h1 hch.2
    rw [List.getLastD_cons]
    exact h2

theorem run_append (m : M) (a b : List Call) :
    run m (a ++ b) = run (run m a) b :=
  List.foldl_append step m a b

/-- C1 counterexample.  The claim requires only non-decreasing length of
the supplied accumulated texts.  Supplying "ab" and then "cd" (lengths
2, 2, non-decreasing), with every outbound send succeeding and the start
acknowledgement resolving in between, transmits exactly "ab": the second
call computes an empty delta (slice from index 2) and is a no-op, so the
transmitted tokens do not concatenate to the final accumulated text
"cd". -/
theorem nondecreasing_length_counterexample :
    (['a', 'b'] : Str).length ≤ (['c', 'd'] : Str).length ∧
    (run (initM []) [Call.sendToken ['a', 'b'], Call.onAck,
      Call.sendToken ['c', 'd']]).s.failed = false ∧
    (run (initM []) [Call.sendToken ['a', 'b'], Call.onAck,
      Call.sendToken ['c', 'd']]).s.ready = true ∧
    tokenConcat (run (initM []) [Call.sendToken ['a', 'b'], Call.onAck,
      Call.sendToken ['c', 'd']]).sent = ['a', 'b'] ∧
    tokenConcat (run (initM []) [Call.sendToken ['a', 'b'], Call.onAck,
      Call.sendToken ['c', 'd']]).sent ≠ ['c', 'd'] := by
  exact ⟨by decide, by decide, by decide, by decide, by decide⟩

/-- C1 (amended).  For every sequence of sendToken calls whose supplied
accumulated texts grow by extension (each earlier text is a prefix of
the next), with every outbound send succeeding and the start
acknowledgement resolving at an arbitrary point of the sequence after
the session has started, the transmitted token deltas (buffered and
flushed before the ack, sent directly after it) concatenate to exactly
the final accumulated text. -/
theorem growing_text_transmits_exactly_final (ts1 ts2 : List Str)
    (h1 : List.Chain (· <+: ·) ([] : Str) ts1)
    (h2 : List.Chain (· <+: ·) (ts1.getLastD []) ts2)
    (hstarted : (run (initM []) (ts1.map Call.sendToken)).s.started = true) :
    tokenConcat (run (initM [])
        (ts1.map Call.sendToken ++ Call.onAck :: ts2.map Call.sendToken)).sent
      = ts2.getLastD (ts1.getLastD []) := by
  have hbuf := ibuf_run ts1 (initM []) [] ibuf_initM h1
  have hpa : (run (initM []) (ts1.map Call.sendToken)).s.pendingAck = true := by
    rcases hbuf with ⟨_, _, _, _, _, hsp, _, _, _⟩
    rw [← hsp]
    exact hstarted
  have hready := ibuf_onAck hbuf hpa
  have hfin := iready_run ts2 _ _ hready h2
  rw [run_append]
  rw [show run (run (initM []) (ts1.map Call.sendToken))
        (Call.onAck :: ts2.map Call.sendToken)
      = run (step (run (initM []) (ts1.map Call.sendToken)) Call.onAck)
        (ts2.map Call.sendToken) from rfl]
  exact hfin.2.2.2.2.2.2.2.1

/-- Witness for the amended C1: accumulated texts "hi" before the ack
and "hi!" after it; the transmitted tokens concatenate to "hi!". -/
theorem growing_text_transmits_exactly_final_witness :
    (List.Chain (· <+: ·) ([] : Str) [['h', 'i']] ∧
      List.Chain (· <+: ·) (([['h', 'i']] : List Str).getLastD [])
        [['h', 'i', '!']] ∧
      (run (initM []) (([['h', 'i']] : List Str).map Call.sendToken)).s.started = true) ∧
    tokenConcat (run (initM [])
        (([['h', 'i']] : List Str).map Call.sendToken
          ++ Call.onAck :: ([['h', 'i', '!']] : List Str).map Call.sendToken)).sent
      = ([['h', 'i', '!']] : List Str).getLastD (([['h', 'i']] : List Str).getLastD []) :=
  ⟨⟨List.Chain.cons (List.nil_prefix) List.Chain.nil,
      List.Chain.cons ⟨['!'], rfl⟩ List.Chain.nil, by decide⟩,
    growing_text_transmits_exactly_final [['h', 'i']] [['h', 'i', '!']]
      (List.Chain.cons (List.nil_prefix) List.Chain.nil)
      (List.Chain.cons ⟨['!'], rfl⟩ List.Chain.nil) (by decide)⟩

namespace StreamSession

theorem send_cons_true (m : M) (f : Frame) (rest : List Bool)
    (h : m.oracle = true :: rest) :
    send m f = (true, { m with oracle := rest, sent := m.sent ++ [f] }) := by
  simp [send, h]

theorem send_cons_false (m : M) (f : Frame) (rest : List Bool)
    (h : m.oracle = false :: rest) :
    send m f = (false, { m with oracle := rest }) := by
  simp [send, h]

theorem markSendFailed_failed (m : M) : (markSendFailed m).s.failed = true := by
  unfold markSendFailed
  split
  · assumption
  · rfl

theorem flushTokensLoop_of_failed :
    ∀ (ts : List Str) (m : M), m.s.failed = true → flushTokensLoop ts m = m
  | [], _, _ => rfl
  | t :: rest, m, h => by
    unfold flushTokensLoop
    rw [if_pos h]

theorem flushEventsLoop_ok :
    ∀ (evs : List ToolEventPayload) (m : M) (o2 : List Bool),
      m.s.failed = false →
      m.oracle = List.replicate evs.length true ++ o2 →
      flushEventsLoop evs m =
        { m with oracle := o2, sent := m.sent ++ evs.map Frame.streamEvent }
  | [], m, o2, _, ho => by
    unfold flushEventsLoop
    simp only [List.length_nil, List.replicate_zero, List.nil_append] at ho
    rw [← ho]
    simp
  | e :: rest, m, o2, hf, ho => by
    rw [List.length_cons, List.replicate_succ, List.cons_append] at ho
    unfold flushEventsLoop
    rw [if_neg (by simp [hf]), send_cons_true m _ _ ho]
    rw [if_pos rfl]
    rw [flushEventsLoop_ok rest
      { m with
        oracle := List.replicate rest.length true ++ o2,
        sent := m.sent ++ [Frame.streamEvent e] } o2 hf rfl]
    simp

theorem flushEventsLoop_fail :
    ∀ (evs : List ToolEventPayload) (n : Nat) (o2 : List Bool) (m : M),
      m.s.failed = false →
      m.oracle = List.replicate n true ++ false :: o2 →
      n < evs.length →
      flushEventsLoop evs m = markSendFailed
        { m with oracle := o2, sent := m.sent ++ (evs.take n).map Frame.streamEvent }
  | [], n, o2, m, _, _, hn => by simp at hn
  | e :: rest, 0, o2, m, hf, ho, hn => by
    simp only [List.replicate_zero, List.nil_append] at ho
    unfold flushEventsLoop
    rw [if_neg (by simp [hf]), send_cons_false m _ _ ho]
    rw [if_neg (by simp)]
    congr 1
    simp
  | e :: rest, k + 1, o2, m, hf, ho, hn => by
    rw [List.replicate_succ, List.cons_append] at ho
    unfold flushEventsLoop
    rw [if_neg (by simp [hf]), send_cons_true m _ _ ho]
    rw [if_pos rfl]
    rw [flushEventsLoop_fail rest k o2
      { m with
        oracle := List.replicate k true ++ false :: o2,
        sent := m.sent ++ [Frame.streamEvent e] } hf rfl
      (by simpa using Nat.lt_of_succ_lt_succ hn)]
    congr 1
    simp

theorem flushTokensLoop_ok :
    ∀ (ts : List Str) (m : M) (o2 : List Bool),
      m.s.failed = false →
      m.oracle = List.replicate ts.length true ++ o2 →
      flushTokensLoop ts m =
        { m with oracle := o2, sent := m.sent ++ ts.map Frame.streamToken }
  | [], m, o2, _, ho => by
    unfold flushTokensLoop
    simp only [List.length_nil, List.replicate_zero, List.nil_append] at ho
    rw [← ho]
    simp
  | t :: rest, m, o2, hf, ho => by
    rw [List.length_cons, List.replicate_succ, List.cons_append] at ho
    unfold flushTokensLoop
    rw [if_neg (by simp [hf]), send_cons_true m _ _ ho]
    rw [if_pos rfl]
    rw [flushTokensLoop_ok rest
      { m with
        oracle := List.replicate rest.length true ++ o2,
        sent := m.sent ++ [Frame.streamToken t] } o2 hf rfl]
    simp

theorem flushTokensLoop_fail :
    ∀ (ts : List Str) (n : Nat) (o2 : List Bool) (m : M),
      m.s.failed = false →
      m.oracle = List.replicate n true ++ false :: o2 →
      n < ts.length →
      flushTokensLoop ts m = markSendFailed
        { m with oracle := o2, sent := m.sent ++ (ts.take n).map Frame.streamToken }
  | [], n, o2, m, _, _, hn => by simp at hn
  | t :: rest, 0, o2, m, hf, ho, hn => by
    simp only [List.replicate_zero, List.nil_append] at ho
    unfold flushTokensLoop
    rw [if_neg (by simp [hf]), send_cons_false m _ _ ho]
    rw [if_neg (by simp)]
    rw [flushTokensLoop_of_failed rest _ (markSendFailed_failed _)]
    congr 1
    simp
  | t :: rest, k + 1, o2, m, hf, ho, hn => by
    rw [List.replicate_succ, List.cons_append] at ho
    unfold flushTokensLoop
    rw [if_neg (by simp [hf]), send_cons_true m _ _ ho]
    rw [if_pos rfl]
    rw [flushTokensLoop_fail rest k o2
      { m with
        oracle := List.replicate k true ++ false :: o2,
        sent := m.sent ++ [Frame.streamToken t] } hf rfl
      (by simpa using Nat.lt_of_succ_lt_succ hn)]
    congr 1
    simp

end StreamSession

namespace StreamSession

theorem markSendFailed_clears (m : M) (hf : m.s.failed = false) :
    (markSendFailed m).s.pendingTokens = [] ∧
    (markSendFailed m).s.pendingToolEvents = [] := by
  unfold markSendFailed
  rw [if_neg (by simp [hf])]
  exact ⟨rfl, rfl⟩

theorem flushBuffers_fail (m : M) (n : Nat) (o2 : List Bool)
    (hf : m.s.failed = false)
    (ho : m.oracle = List.replicate n true ++ false :: o2)
    (hn : n < m.s.pendingToolEvents.length + m.s.pendingTokens.length) :
    (flushBuffers m).s.failed = true ∧
    (flushBuffers m).s.pendingTokens = [] ∧
    (flushBuffers m).s.pendingToolEvents = [] ∧
    (flushBuffers m).sent = m.sent ++
      ((m.s.pendingToolEvents.map Frame.streamEvent
        ++ m.s.pendingTokens.map Frame.streamToken).take n) := by
  unfold flushBuffers
  by_cases hcase : n < m.s.pendingToolEvents.length
  · rw [flushEventsLoop_fail m.s.pendingToolEvents n o2 m hf ho hcase]
    set R : M := { m with
      oracle := o2,
      sent := m.sent ++ (m.s.pendingToolEvents.take n).map Frame.streamEvent } with hR
    rw [(markSendFailed_clears R hf).1]
    have hle : n ≤ (m.s.pendingToolEvents.map Frame.streamEvent).length := by
      simp only [List.length_map]
      omega
    refine ⟨markSendFailed_failed _, rfl, rfl, ?_⟩
    show (markSendFailed R).sent = _
    rw [markSendFailed_sent, List.take_append_of_le_length hle, ← List.map_take]
  · have hk : n - m.s.pendingToolEvents.length < m.s.pendingTokens.length := by omega
    have hsplit : m.oracle = List.replicate m.s.pendingToolEvents.length true
        ++ (List.replicate (n - m.s.pendingToolEvents.length) true ++ false :: o2) := by
      rw [ho, ← List.append_assoc, ← List.replicate_add]
      congr 2
      omega
    rw [flushEventsLoop_ok m.s.pendingToolEvents m _ hf hsplit]
    set X : M := { m with
      oracle := List.replicate (n - m.s.pendingToolEvents.length) true ++ false :: o2,
      sent := m.sent ++ m.s.pendingToolEvents.map Frame.streamEvent } with hX
    rw [flushTokensLoop_fail m.s.pendingTokens (n - m.s.pendingToolEvents.length) o2
      (clearEvents X) hf rfl hk]
    have hlem : (m.s.pendingToolEvents.map Frame.streamEvent).length ≤ n := by
      simp only [List.length_map]
      omega
    set R2 : M := { clearEvents X with
      oracle := o2,
      sent := (clearEvents X).sent
        ++ (m.s.pendingTokens.take (n - m.s.pendingToolEvents.length)).map
          Frame.streamToken } with hR2
    refine ⟨markSendFailed_failed _, rfl, (markSendFailed_clears R2 hf).2, ?_⟩
    show (markSendFailed R2).sent = _
    rw [markSendFailed_sent, List.take_append_eq_append_take,
      List.take_of_length_le hlem, ← List.map_take]
    show (m.sent ++ m.s.pendingToolEvents.map Frame.streamEvent)
        ++ (m.s.pendingTokens.take (n - m.s.pendingToolEvents.length)).map
          Frame.streamToken = _
    simp [List.append_assoc]

end StreamSession

/-- C6.  If the session is awaiting its ack with buffered output, and
during the flush that follows acknowledgement success the n-th flush
send is the first to report failure (earlier flush sends succeed), then
the session is failed immediately, exactly the first n buffered frames
(tool events before text, FIFO) were transmitted, and the remaining
buffered items are discarded: both buffers are empty and nothing after
the failing send is transmitted or retried. -/
theorem flush_failure_fails_and_discards (m : M) (n : Nat) (o2 : List Bool)
    (hpa : m.s.pendingAck = true) (hf : m.s.failed = false)
    (ho : m.oracle = List.replicate n true ++ false :: o2)
    (hn : n < (m.s.pendingToolEvents.map Frame.streamEvent
      ++ m.s.pendingTokens.map Frame.streamToken).length) :
    (StreamSession.onAck m).s.failed = true ∧
    (StreamSession.onAck m).s.pendingTokens = [] ∧
    (StreamSession.onAck m).s.pendingToolEvents = [] ∧
    (StreamSession.onAck m).sent = m.sent ++
      ((m.s.pendingToolEvents.map Frame.streamEvent
        ++ m.s.pendingTokens.map Frame.streamToken).take n) := by
  unfold StreamSession.onAck StreamSession.ackResolve
  rw [if_pos hpa]
  have hn2 : n < (StreamSession.setReady
      (StreamSession.clearAckTimeout m)).s.pendingToolEvents.length
      + (StreamSession.setReady
      (StreamSession.clearAckTimeout m)).s.pendingTokens.length := by
    simpa [StreamSession.setReady, StreamSession.clearAckTimeout,
      List.length_append] using hn
  obtain ⟨g1, g2, g3, g4⟩ := StreamSession.flushBuffers_fail
    (StreamSession.setReady (StreamSession.clearAckTimeout m)) n o2 hf ho hn2
  unfold StreamSession.ackMaybeFinish
  rw [if_neg (by simp [g1])]
  exact ⟨g1, g2, g3, g4⟩

/-- A concrete awaiting session with one buffered tool event and one
buffered token, whose very first flush send fails. -/
def flushFailState : M :=
  { s :=
      { failed := false, started := true, ready := false,
        finishRequested := false, finishSent := false, lastSentLength := 2,
        pendingTokens := [['h', 'i']], pendingToolEvents := [⟨['t'], []⟩],
        pendingAck := true, ackTimeoutSet := true },
    oracle := [false], sent := [Frame.streamStart] }

/-- Witness for C6 at flushFailState: nothing of the buffers is
transmitted, the session is failed, both buffers are discarded. -/
theorem flush_failure_fails_and_discards_witness :
    (flushFailState.s.pendingAck = true ∧ flushFailState.s.failed = false ∧
      flushFailState.oracle = List.replicate 0 true ++ false :: [] ∧
      0 < (flushFailState.s.pendingToolEvents.map Frame.streamEvent
        ++ flushFailState.s.pendingTokens.map Frame.streamToken).length) ∧
    ((StreamSession.onAck flushFailState).s.failed = true ∧
      (StreamSession.onAck flushFailState).s.pendingTokens = [] ∧
      (StreamSession.onAck flushFailState).s.pendingToolEvents = [] ∧
      (StreamSession.onAck flushFailState).sent = flushFailState.sent ++
        ((flushFailState.s.pendingToolEvents.map Frame.streamEvent
          ++ flushFailState.s.pendingTokens.map Frame.streamToken).take 0)) :=
  ⟨⟨by decide, by decide, by decide, by decide⟩,
    flush_failure_fails_and_discards flushFailState 0 []
      (by decide) (by decide) (by decide) (by decide)⟩

/-- Message identifiers (keys of sessionsByMessageId). -/
abbrev MsgId := Nat

/-- The module-level registry state of src/messageHandler.ts (lines
475-481): sessionsByMessageId, pendingAckOrder,
dispatchCompletedMessageIds and deferredCleanupByMessageId (modelled as
the set of ids holding a scheduled cleanup timer), together with the
shared outbound machinery: the send oracle of the one connection and
the log of transmitted frames tagged with their session id. -/
structure Reg where
  sessions : List (MsgId × SessionState)
  pendingAckOrder : List MsgId
  dispatchCompleted : List MsgId
  deferredCleanup : List MsgId
  oracle : List Bool
  sent : List (MsgId × Frame)
  deriving DecidableEq

/-- Map.get of the insertion-ordered sessionsByMessageId map (first
entry with the key; keys are unique in a JS Map). -/
def mapGet : List (MsgId × SessionState) → MsgId → Option SessionState
  | [], _ => none
  | p :: rest, k => if p.1 = k then some p.2 else mapGet rest k

/-- Map.set: replace the value at an existing key in place, append a
fresh entry otherwise. -/
def mapSet : List (MsgId × SessionState) → MsgId → SessionState →
    List (MsgId × SessionState)
  | [], k, v => [(k, v)]
  | p :: rest, k, v => if p.1 = k then (k, v) :: rest else p :: mapSet rest k v

/-- Map.delete. -/
def mapDelete : List (MsgId × SessionState) → MsgId → List (MsgId × SessionState)
  | [], _ => []
  | p :: rest, k => if p.1 = k then mapDelete rest k else p :: mapDelete rest k

/-- untrackSession (src/messageHandler.ts, lines 512-524): drop the
session from the map, forget its dispatch-completed mark, remove the
first occurrence of its id from the awaiting-queue, and cancel any
deferred cleanup timer. -/
def untrackSession (r : Reg) (messageId : MsgId) : Reg :=
  { r with
    sessions := mapDelete r.sessions messageId,
    dispatchCompleted := r.dispatchCompleted.filter fun i => i != messageId,
    pendingAckOrder := r.pendingAckOrder.erase messageId,
    deferredCleanup := r.deferredCleanup.filter fun i => i != messageId }

/-- session?.isAwaitingAck: the optional-chained awaiting test on a raw
session map. -/
def awaitingB (ss : List (MsgId × SessionState)) (messageId : MsgId) : Bool :=
  match mapGet ss messageId with
  | some st => st.pendingAck
  | none => false

/-- session?.isAwaitingAck for a registry entry. -/
def isAwaitingAck (r : Reg) (messageId : MsgId) : Bool :=
  awaitingB r.sessions messageId

/-- The while loop of resolveSessionForAck (lines 538-545): pop stale
entries (no session, or session no longer awaiting) off the front of the
awaiting-queue, stopping at the first id whose session is still
awaiting, which is left at the head. -/
def dropStaleLoop : List MsgId → List (MsgId × SessionState) → Option MsgId × List MsgId
  | [], _ => (none, [])
  | i :: rest, ss =>
    if awaitingB ss i then (some i, i :: rest) else dropStaleLoop rest ss

/-- resolveSessionForAck (lines 532-548): direct lookup when the ack
carries an id (routed only while that session is awaiting); otherwise
the oldest still-awaiting entry of the queue, discarding stale entries.
Returns the id of the routed session and the mutated registry. -/
def resolveSessionForAck (r : Reg) (messageId : Option MsgId) :
    Option MsgId × Reg :=
  match messageId with
  | some mid => (if isAwaitingAck r mid then some mid else none, r)
  | none =>
    match dropStaleLoop r.pendingAckOrder r.sessions with
    | (res, order) => (res, { r with pendingAckOrder := order })

/-- cleanupTrackedSessionIfComplete (lines 550-566). -/
def cleanupTrackedSessionIfComplete (r : Reg) (messageId : MsgId) : Reg :=
  match mapGet r.sessions messageId with
  | none =>
    { r with dispatchCompleted := r.dispatchCompleted.filter fun i => i != messageId }
  | some st =>
    if messageId ∈ r.dispatchCompleted then
      if st.pendingAck then r else untrackSession r messageId
    else r

/-- Run a session-machine operation on the tracked session of a message
id, sharing the connection oracle and tagging transmitted frames. -/
def applySession (r : Reg) (messageId : MsgId) (f : M → M) : Reg :=
  match mapGet r.sessions messageId with
  | none => r
  | some st =>
    { r with
      sessions := mapSet r.sessions messageId
        (f { s := st, oracle := r.oracle, sent := [] }).s,
      oracle := (f { s := st, oracle := r.oracle, sent := [] }).oracle,
      sent := r.sent ++ ((f { s := st, oracle := r.oracle, sent := [] }).sent.map
        fun fr => (messageId, fr)) }

/-- resolveStreamAck (lines 862-878): route the ack via
resolveSessionForAck, call onAck on the routed session, then remove the
id from the awaiting-queue (the given id, or the queue head when the
ack carried none) and run the completion cleanup for it. -/
def resolveStreamAck (r : Reg) (messageId : Option MsgId) : Reg :=
  match resolveSessionForAck r messageId with
  | (none, r1) => r1
  | (some sid, r1) =>
    match messageId with
    | some mid =>
      cleanupTrackedSessionIfComplete
        { (applySession r1 sid StreamSession.onAck) with
          pendingAckOrder :=
            (applySession r1 sid StreamSession.onAck).pendingAckOrder.erase mid } mid
    | none =>
      match (applySession r1 sid StreamSession.onAck).pendingAckOrder with
      | [] => applySession r1 sid StreamSession.onAck
      | pendingMessageId :: restOrder =>
        cleanupTrackedSessionIfComplete
          { (applySession r1 sid StreamSession.onAck) with
            pendingAckOrder := restOrder } pendingMessageId

/-- failStreamSession (lines 905-918): force-fail one tracked session
(failFromServer) and run the completion cleanup. -/
def failStreamSession (r : Reg) (messageId : MsgId) : Reg :=
  match mapGet r.sessions messageId with
  | none => r
  | some _ =>
    cleanupTrackedSessionIfComplete
      (applySession r messageId StreamSession.failFromServer) messageId

/-- The loop body of failAllStreamSessions over the snapshot of the
tracked ids. -/
def failAllGo : List MsgId → Reg → Reg
  | [], r => r
  | k :: ks, r => failAllGo ks (untrackSession (failStreamSession r k) k)

/-- failAllStreamSessions (lines 925-930), invoked by the connection
manager onDisconnected handler (src/index.ts, lines 1292-1296): for
every currently tracked id, force-fail the session and untrack it. -/
def failAllStreamSessions (r : Reg) : Reg :=
  failAllGo (r.sessions.map Prod.fst) r

theorem mapGet_nil (k : MsgId) : mapGet [] k = none := rfl

theorem mapGet_mapSet_self :
    ∀ (l : List (MsgId × SessionState)) (k : MsgId) (v : SessionState),
      mapGet (mapSet l k v) k = some v
  | [], k, v => by simp [mapSet, mapGet]
  | p :: rest, k, v => by
    unfold mapSet
    by_cases hp : p.1 = k
    · rw [if_pos hp]
      simp [mapGet]
    · rw [if_neg hp]
      unfold mapGet
      rw [if_neg hp]
      exact mapGet_mapSet_self rest k v

theorem mapGet_mapSet_ne :
    ∀ (l : List (MsgId × SessionState)) (k k2 : MsgId) (v : SessionState),
      k2 ≠ k → mapGet (mapSet l k v) k2 = mapGet l k2
  | [], k, k2, v, h => by
    simp only [mapSet, mapGet]
    rw [if_neg (Ne.symm h)]
  | p :: rest, k, k2, v, h => by
    unfold mapSet
    by_cases hp : p.1 = k
    · rw [if_pos hp]
      show mapGet ((k, v) :: rest) k2 = mapGet (p :: rest) k2
      unfold mapGet
      rw [if_neg (Ne.symm h), if_neg (by rw [hp]; exact Ne.symm h)]
    · rw [if_neg hp]
      unfold mapGet
      by_cases hp2 : p.1 = k2
      · rw [if_pos hp2, if_pos hp2]
      · rw [if_neg hp2, if_neg hp2]
        exact mapGet_mapSet_ne rest k k2 v h

theorem mapGet_mapDelete_ne :
    ∀ (l : List (MsgId × SessionState)) (k k2 : MsgId),
      k2 ≠ k → mapGet (mapDelete l k) k2 = mapGet l k2
  | [], k, k2, _ => rfl
  | p :: rest, k, k2, h => by
    unfold mapDelete
    by_cases hp : p.1 = k
    · rw [if_pos hp, mapGet_mapDelete_ne rest k k2 h]
      show mapGet rest k2 = mapGet (p :: rest) k2
      simp only [mapGet]
      rw [if_neg (by rw [hp]; exact Ne.symm h)]
    · rw [if_neg hp]
      unfold mapGet
      by_cases hp2 : p.1 = k2
      · rw [if_pos hp2, if_pos hp2]
      · rw [if_neg hp2, if_neg hp2]
        exact mapGet_mapDelete_ne rest k k2 h

theorem mapGet_mapDelete_self :
    ∀ (l : List (MsgId × SessionState)) (k : MsgId),
      mapGet (mapDelete l k) k = none
  | [], _ => rfl
  | p :: rest, k => by
    unfold mapDelete
    by_cases hp : p.1 = k
    · rw [if_pos hp]
      exact mapGet_mapDelete_self rest k
    · rw [if_neg hp]
      unfold mapGet
      rw [if_neg hp]
      exact mapGet_mapDelete_self rest k

theorem dropStaleLoop_skip (r : Reg) :
    ∀ (stale rest : List MsgId), (∀ i ∈ stale, isAwaitingAck r i = false) →
      dropStaleLoop (stale ++ rest) r.sessions = dropStaleLoop rest r.sessions
  | [], rest, _ => rfl
  | i :: stale, rest, h => by
    have hi : awaitingB r.sessions i = false := h i (by simp)
    rw [List.cons_append,
      show dropStaleLoop (i :: (stale ++ rest)) r.sessions
        = if awaitingB r.sessions i then (some i, i :: (stale ++ rest))
          else dropStaleLoop (stale ++ rest) r.sessions from rfl,
      if_neg (by simp [hi])]
    exact dropStaleLoop_skip r stale rest (fun j hj => h j (by simp [hj]))

theorem awaitingB_true (ss : List (MsgId × SessionState)) (a : MsgId)
    (sa : SessionState) (ha : mapGet ss a = some sa)
    (hpa : sa.pendingAck = true) : awaitingB ss a = true := by
  unfold awaitingB
  rw [ha]
  exact hpa

theorem dropStaleLoop_head (ss : List (MsgId × SessionState)) (a : MsgId)
    (l : List MsgId) (sa : SessionState) (ha : mapGet ss a = some sa)
    (hpa : sa.pendingAck = true) :
    dropStaleLoop (a :: l) ss = (some a, a :: l) := by
  rw [show dropStaleLoop (a :: l) ss
      = if awaitingB ss a then (some a, a :: l) else dropStaleLoop l ss from rfl,
    if_pos (awaitingB_true ss a sa ha hpa)]

theorem onAck_pendingAck_false (m : M) :
    (StreamSession.onAck m).s.pendingAck = false := by
  unfold StreamSession.onAck
  split
  · rfl
  · rename_i h
    simpa using h

theorem applySession_pendingAckOrder (r : Reg) (mid : MsgId) (f : M → M) :
    (applySession r mid f).pendingAckOrder = r.pendingAckOrder := by
  unfold applySession
  split
  · rfl
  · rfl

theorem applySession_dispatchCompleted (r : Reg) (mid : MsgId) (f : M → M) :
    (applySession r mid f).dispatchCompleted = r.dispatchCompleted := by
  unfold applySession
  split
  · rfl
  · rfl

theorem applySession_get_ne (r : Reg) (mid : MsgId) (f : M → M) (k : MsgId)
    (h : k ≠ mid) :
    mapGet (applySession r mid f).sessions k = mapGet r.sessions k := by
  unfold applySession
  split
  · rfl
  · exact mapGet_mapSet_ne r.sessions mid k _ h

theorem applySession_get_self (r : Reg) (mid : MsgId) (f : M → M)
    (st : SessionState) (heq : mapGet r.sessions mid = some st) :
    mapGet (applySession r mid f).sessions mid =
      some (f { s := st, oracle := r.oracle, sent := [] }).s := by
  unfold applySession
  split
  · rename_i hnone
    rw [hnone] at heq
    cases heq
  · rename_i st2 heq2
    rw [heq2] at heq
    injection heq with heq3
    subst heq3
    exact mapGet_mapSet_self r.sessions mid _

theorem isAwaitingAck_untrack_self (r : Reg) (mid : MsgId) :
    isAwaitingAck (untrackSession r mid) mid = false := by
  show (match mapGet (mapDelete r.sessions mid) mid with
    | some st => st.pendingAck
    | none => false) = false
  rw [mapGet_mapDelete_self]

theorem cleanup_eq_of_get_not_awaiting (r : Reg) (mid : MsgId)
    (st : SessionState) (hget : mapGet r.sessions mid = some st)
    (hpa : st.pendingAck = false) :
    cleanupTrackedSessionIfComplete r mid =
      if mid ∈ r.dispatchCompleted then untrackSession r mid else r := by
  unfold cleanupTrackedSessionIfComplete
  rw [hget]
  show (if mid ∈ r.dispatchCompleted then
      if st.pendingAck then r else untrackSession r mid else r) = _
  by_cases hdc : mid ∈ r.dispatchCompleted
  · rw [if_pos hdc, if_pos hdc, if_neg (by simp [hpa])]
  · rw [if_neg hdc, if_neg hdc]

/-- C2.  Identifier-less acknowledgements are routed in start order: if
the awaiting-queue consists of stale entries (whose sessions are no
longer awaiting) followed by sessions a (started first) and b (started
second), both awaiting, then resolving an identifier-less ack routes it
to a (the stale entries are skipped and discarded), after which a is no
longer awaiting, b is untouched, and resolving a second identifier-less
ack routes it to b. -/
theorem identifierless_ack_routes_in_start_order
    (r : Reg) (stale : List MsgId) (a b : MsgId) (sa sb : SessionState)
    (hord : r.pendingAckOrder = stale ++ [a, b])
    (hstale : ∀ i ∈ stale, isAwaitingAck r i = false)
    (hab : a ≠ b)
    (ha : mapGet r.sessions a = some sa) (hpa : sa.pendingAck = true)
    (hb : mapGet r.sessions b = some sb) (hpb : sb.pendingAck = true) :
    (resolveSessionForAck r none).1 = some a ∧
    (resolveStreamAck r none).pendingAckOrder = [b] ∧
    mapGet (resolveStreamAck r none).sessions b = some sb ∧
    isAwaitingAck (resolveStreamAck r none) a = false ∧
    (resolveSessionForAck (resolveStreamAck r none) none).1 = some b := by
  have hdrop : dropStaleLoop r.pendingAckOrder r.sessions = (some a, [a, b]) := by
    rw [hord, dropStaleLoop_skip r stale [a, b] hstale]
    exact dropStaleLoop_head r.sessions a [b] sa ha hpa
  have h1 : resolveSessionForAck r none
      = (some a, { r with pendingAckOrder := [a, b] }) := by
    show (match dropStaleLoop r.pendingAckOrder r.sessions with
      | (res, order) => (res, { r with pendingAckOrder := order })) = _
    rw [hdrop]
  have horder2 : (applySession { r with pendingAckOrder := [a, b] } a
      StreamSession.onAck).pendingAckOrder = [a, b] :=
    applySession_pendingAckOrder _ a _
  have hrsa : resolveStreamAck r none =
      cleanupTrackedSessionIfComplete
        { applySession { r with pendingAckOrder := [a, b] } a StreamSession.onAck with
          pendingAckOrder := [b] } a := by
    unfold resolveStreamAck
    rw [h1]
    show (match (applySession { r with pendingAckOrder := [a, b] } a
        StreamSession.onAck).pendingAckOrder with
      | [] => applySession { r with pendingAckOrder := [a, b] } a StreamSession.onAck
      | pendingMessageId :: restOrder =>
        cleanupTrackedSessionIfComplete
          { applySession { r with pendingAckOrder := [a, b] } a StreamSession.onAck with
            pendingAckOrder := restOrder } pendingMessageId) = _
    rw [horder2]
  have hget3 : mapGet ({ applySession { r with pendingAckOrder := [a, b] } a
      StreamSession.onAck with pendingAckOrder := [b] }).sessions a =
      some (StreamSession.onAck
        { s := sa, oracle := r.oracle, sent := [] }).s :=
    applySession_get_self { r with pendingAckOrder := [a, b] } a
      StreamSession.onAck sa ha
  have hpa2 : (StreamSession.onAck
      { s := sa, oracle := r.oracle, sent := [] }).s.pendingAck = false :=
    onAck_pendingAck_false _
  have hclean := cleanup_eq_of_get_not_awaiting
    { applySession { r with pendingAckOrder := [a, b] } a StreamSession.onAck with
      pendingAckOrder := [b] } a _ hget3 hpa2
  have hdc3 : ({ applySession { r with pendingAckOrder := [a, b] } a
      StreamSession.onAck with pendingAckOrder := [b] }).dispatchCompleted
      = r.dispatchCompleted :=
    applySession_dispatchCompleted _ a _
  rw [hdc3] at hclean
  have hc2 : (resolveStreamAck r none).pendingAckOrder = [b] := by
    rw [hrsa, hclean]
    by_cases hdc : a ∈ r.dispatchCompleted
    · rw [if_pos hdc]
      show ([b].erase a) = [b]
      refine List.erase_of_not_mem ?_
      simp only [List.mem_singleton]
      exact hab
    · rw [if_neg hdc]
  have hc3 : mapGet (resolveStreamAck r none).sessions b = some sb := by
    have hbase : mapGet ({ applySession { r with pendingAckOrder := [a, b] } a
        StreamSession.onAck with pendingAckOrder := [b] }).sessions b
        = some sb := by
      show mapGet (applySession { r with pendingAckOrder := [a, b] } a
        StreamSession.onAck).sessions b = some sb
      rw [applySession_get_ne _ a _ b (Ne.symm hab)]
      exact hb
    rw [hrsa, hclean]
    by_cases hdc : a ∈ r.dispatchCompleted
    · rw [if_pos hdc]
      show mapGet (mapDelete _ a) b = some sb
      rw [mapGet_mapDelete_ne _ a b (Ne.symm hab)]
      exact hbase
    · rw [if_neg hdc]
      exact hbase
  have hc4 : isAwaitingAck (resolveStreamAck r none) a = false := by
    rw [hrsa, hclean]
    by_cases hdc : a ∈ r.dispatchCompleted
    · rw [if_pos hdc]
      exact isAwaitingAck_untrack_self _ a
    · rw [if_neg hdc]
      show (match mapGet ({ applySession { r with pendingAckOrder := [a, b] } a
          StreamSession.onAck with pendingAckOrder := [b] }).sessions a with
        | some st => st.pendingAck
        | none => false) = false
      rw [hget3]
      exact hpa2
  have hc5 : (resolveSessionForAck (resolveStreamAck r none) none).1 = some b := by
    have hdrop2 : dropStaleLoop (resolveStreamAck r none).pendingAckOrder
        (resolveStreamAck r none).sessions = (some b, [b]) := by
      rw [hc2]
      exact dropStaleLoop_head _ b [] sb hc3 hpb
    show (match dropStaleLoop (resolveStreamAck r none).pendingAckOrder
        (resolveStreamAck r none).sessions with
      | (res, order) => (res, { resolveStreamAck r none with
          pendingAckOrder := order })).1 = some b
    rw [hdrop2]
  exact ⟨by rw [h1], hc2, hc3, hc4, hc5⟩

/-- A session state awaiting its start acknowledgement. -/
def awaitingSt : SessionState :=
  { initialSession with started := true, pendingAck := true, ackTimeoutSet := true }

/-- Registry for the C2 witness: a stale entry 7 (not awaiting) ahead of
awaiting sessions 1 (started first) and 2 (started second). -/
def c2Reg : Reg :=
  { sessions := [(7, initialSession), (1, awaitingSt), (2, awaitingSt)],
    pendingAckOrder := [7, 1, 2],
    dispatchCompleted := [], deferredCleanup := [], oracle := [], sent := [] }

/-- Witness for C2 on c2Reg. -/
theorem identifierless_ack_routes_in_start_order_witness :
    (c2Reg.pendingAckOrder = [7] ++ [1, 2] ∧
      (∀ i ∈ [7], isAwaitingAck c2Reg i = false) ∧
      (1 : MsgId) ≠ 2 ∧
      mapGet c2Reg.sessions 1 = some awaitingSt ∧ awaitingSt.pendingAck = true ∧
      mapGet c2Reg.sessions 2 = some awaitingSt) ∧
    ((resolveSessionForAck c2Reg none).1 = some 1 ∧
      (resolveStreamAck c2Reg none).pendingAckOrder = [2] ∧
      mapGet (resolveStreamAck c2Reg none).sessions 2 = some awaitingSt ∧
      isAwaitingAck (resolveStreamAck c2Reg none) 1 = false ∧
      (resolveSessionForAck (resolveStreamAck c2Reg none) none).1 = some 2) :=
  ⟨⟨by decide, by decide, by decide, by decide, by decide, by decide⟩,
    identifierless_ack_routes_in_start_order c2Reg [7] 1 2 awaitingSt awaitingSt
      (by decide) (by decide) (by decide) (by decide) (by decide) (by decide)
      (by decide)⟩

namespace StreamSession

theorem markSendFailed_oracle (m : M) : (markSendFailed m).oracle = m.oracle := by
  unfold markSendFailed
  split
  · rfl
  · rfl

end StreamSession

theorem mapSet_keys :
    ∀ (l : List (MsgId × SessionState)) (k : MsgId) (v st : SessionState),
      mapGet l k = some st → (mapSet l k v).map Prod.fst = l.map Prod.fst
  | [], k, v, st, h => by cases h
  | p :: rest, k, v, st, h => by
    unfold mapSet
    by_cases hp : p.1 = k
    · rw [if_pos hp]
      simp [hp]
    · rw [if_neg hp]
      have h2 : mapGet rest k = some st := by
        unfold mapGet at h
        rw [if_neg hp] at h
        exact h
      simp only [List.map_cons]
      rw [mapSet_keys rest k v st h2]

theorem mapDelete_keys :
    ∀ (l : List (MsgId × SessionState)) (k : MsgId),
      (mapDelete l k).map Prod.fst = (l.map Prod.fst).filter fun i => i != k
  | [], _ => rfl
  | p :: rest, k => by
    unfold mapDelete
    by_cases hp : p.1 = k
    · rw [if_pos hp]
      have : (p.1 != k) = false := by simp [hp]
      simp only [List.map_cons, List.filter_cons, this]
      exact mapDelete_keys rest k
    · rw [if_neg hp]
      have : (p.1 != k) = true := by simp [hp]
      simp only [List.map_cons, List.filter_cons, this]
      rw [mapDelete_keys rest k]
      simp

theorem applySession_keys (r : Reg) (mid : MsgId) (f : M → M) :
    (applySession r mid f).sessions.map Prod.fst = r.sessions.map Prod.fst := by
  unfold applySession
  split
  · rfl
  · rename_i st heq
    exact mapSet_keys r.sessions mid _ st heq

theorem cleanup_sent (r : Reg) (mid : MsgId) :
    (cleanupTrackedSessionIfComplete r mid).sent = r.sent := by
  unfold cleanupTrackedSessionIfComplete
  split
  · rfl
  · split
    · split
      · rfl
      · rfl
    · rfl

theorem cleanup_oracle (r : Reg) (mid : MsgId) :
    (cleanupTrackedSessionIfComplete r mid).oracle = r.oracle := by
  unfold cleanupTrackedSessionIfComplete
  split
  · rfl
  · split
    · split
      · rfl
      · rfl
    · rfl

theorem cleanup_keys_subset (r : Reg) (mid : MsgId) (i : MsgId)
    (hi : i ∈ (cleanupTrackedSessionIfComplete r mid).sessions.map Prod.fst) :
    i ∈ r.sessions.map Prod.fst := by
  unfold cleanupTrackedSessionIfComplete at hi
  split at hi
  · exact hi
  · split at hi
    · split at hi
      · exact hi
      · rw [show (untrackSession r mid).sessions = mapDelete r.sessions mid from rfl,
          mapDelete_keys, List.mem_filter] at hi
        exact hi.1
    · exact hi

theorem applySession_failFromServer_sent (r : Reg) (mid : MsgId) :
    (applySession r mid StreamSession.failFromServer).sent = r.sent := by
  unfold applySession
  split
  · rfl
  · rename_i st heq
    show r.sent ++ ((StreamSession.failFromServer
      { s := st, oracle := r.oracle, sent := [] }).sent.map fun fr => (mid, fr)) = r.sent
    rw [show (StreamSession.failFromServer
      { s := st, oracle := r.oracle, sent := [] }).sent = [] from
      StreamSession.markSendFailed_sent _]
    simp

theorem applySession_failFromServer_oracle (r : Reg) (mid : MsgId) :
    (applySession r mid StreamSession.failFromServer).oracle = r.oracle := by
  unfold applySession
  split
  · rfl
  · rename_i st heq
    exact StreamSession.markSendFailed_oracle _

theorem failStream_sent (r : Reg) (k : MsgId) :
    (failStreamSession r k).sent = r.sent := by
  unfold failStreamSession
  split
  · rfl
  · rw [cleanup_sent]
    exact applySession_failFromServer_sent r k

theorem failStream_oracle (r : Reg) (k : MsgId) :
    (failStreamSession r k).oracle = r.oracle := by
  unfold failStreamSession
  split
  · rfl
  · rw [cleanup_oracle]
    exact applySession_failFromServer_oracle r k

theorem failStream_keys_subset (r : Reg) (k : MsgId) (i : MsgId)
    (hi : i ∈ (failStreamSession r k).sessions.map Prod.fst) :
    i ∈ r.sessions.map Prod.fst := by
  unfold failStreamSession at hi
  split at hi
  · exact hi
  · have h2 := cleanup_keys_subset _ k i hi
    rw [applySession_keys] at h2
    exact h2

theorem failAllGo_spec :
    ∀ (ks : List MsgId) (r : Reg),
      (∀ i ∈ r.sessions.map Prod.fst, i ∈ ks) →
      (failAllGo ks r).sessions = [] ∧ (failAllGo ks r).sent = r.sent ∧
      (failAllGo ks r).oracle = r.oracle
  | [], r, h => by
    have hnil : r.sessions = [] := by
      cases hs : r.sessions with
      | nil => rfl
      | cons p rest => exact absurd (h p.1 (by simp [hs])) (by simp)
    exact ⟨hnil, rfl, rfl⟩
  | k :: ks, r, h => by
    have hsub : ∀ i ∈ (untrackSession (failStreamSession r k) k).sessions.map
        Prod.fst, i ∈ ks := by
      intro i hi
      rw [show (untrackSession (failStreamSession r k) k).sessions
          = mapDelete (failStreamSession r k).sessions k from rfl,
        mapDelete_keys, List.mem_filter] at hi
      obtain ⟨hi1, hi2⟩ := hi
      have hik : i ≠ k := by simpa using hi2
      have hiR := failStream_keys_subset r k i hi1
      have hmem := h i hiR
      simp only [List.mem_cons] at hmem
      rcases hmem with h1 | h2
      · exact absurd h1 hik
      · exact h2
    obtain ⟨g1, g2, g3⟩ := failAllGo_spec ks _ hsub
    refine ⟨g1, ?_, ?_⟩
    · rw [show failAllGo (k :: ks) r
          = failAllGo ks (untrackSession (failStreamSession r k) k) from rfl, g2]
      show (failStreamSession r k).sent = r.sent
      exact failStream_sent r k
    · rw [show failAllGo (k :: ks) r
          = failAllGo ks (untrackSession (failStreamSession r k) k) from rfl, g3]
      show (failStreamSession r k).oracle = r.oracle
      exact failStream_oracle r k

/-- C8.  On total connection loss the connection manager invokes
failAllStreamSessions: every tracked session is force-failed
(failFromServer, modelled from the spec) and removed from the registry
in one synchronous sweep.  Afterwards no session remains registered and
none is awaiting an acknowledgement; no outbound frame is transmitted
and no send is even attempted (the oracle is untouched), so nothing
waits for an ack timeout or a disposal grace period. -/
theorem connection_loss_force_fails_all (r : Reg) :
    (failAllStreamSessions r).sessions = [] ∧
    (∀ i, isAwaitingAck (failAllStreamSessions r) i = false) ∧
    (failAllStreamSessions r).sent = r.sent ∧
    (failAllStreamSessions r).oracle = r.oracle := by
  obtain ⟨g1, g2, g3⟩ := failAllGo_spec (r.sessions.map Prod.fst) r (fun i hi => hi)
  refine ⟨g1, ?_, g2, g3⟩
  intro i
  show (match mapGet (failAllGo (r.sessions.map Prod.fst) r).sessions i with
    | some st => st.pendingAck
    | none => false) = false
  rw [g1]
  rfl

/-- BASE_RECONNECT_DELAY_MS (src/connection.ts, line 194). -/
def BASE_RECONNECT_DELAY_MS : Nat := 1000

/-- MAX_RECONNECT_DELAY_MS (src/connection.ts, line 195). -/
def MAX_RECONNECT_DELAY_MS : Nat := 60000

/-- The reconnect-relevant state of class TypeConnection: the attempt
counter (line 215). -/
structure ConnState where
  reconnectAttempts : Nat
  deriving DecidableEq

/-- The capped exponential base computed by scheduleReconnect (lines
412-415): min(BASE_RECONNECT_DELAY_MS * 2 ^ attempts, MAX_RECONNECT_DELAY_MS). -/
def cappedBase (attempt : Nat) : Nat :=
  min (BASE_RECONNECT_DELAY_MS * 2 ^ attempt) MAX_RECONNECT_DELAY_MS

/-- Math.round(baseDelay * (0.5 + Math.random() * 0.5)) (line 417),
with the random draw given exactly as a rational p / q (0 ≤ p < q;
every value Math.random() can return is such a rational).  For
nonnegative x, Math.round(x) = floor(x + 1/2), and
floor(base * (q + p) / (2 q) + 1/2) is the natural-number division
below. -/
def jitteredDelay (base p q : Nat) : Nat :=
  (base * (q + p) + q) / (2 * q)

/-- TypeConnection.scheduleReconnect (lines 411-426): compute the capped
exponential delay, jitter it, and increment the attempt counter.
Returns the new state and the scheduled delay in milliseconds. -/
def scheduleReconnect (c : ConnState) (p q : Nat) : ConnState × Nat :=
  ({ reconnectAttempts := c.reconnectAttempts + 1 },
    jitteredDelay (cappedBase c.reconnectAttempts) p q)

/-- The open handler of TypeConnection.doConnect (lines 328-337):
this.reconnectAttempts = 0. -/
def handleOpen (_ : ConnState) : ConnState := { reconnectAttempts := 0 }

theorem jitteredDelay_le (B p q : Nat) (hq : 0 < q) (hpq : p < q) :
    jitteredDelay B p q ≤ B := by
  unfold jitteredDelay
  have h2q : 0 < 2 * q := by omega
  have hlt : B * (q + p) + q < (B + 1) * (2 * q) := by
    have hmul : B * (q + p) = B * q + B * p := Nat.mul_add B q p
    have hBp : B * p ≤ B * q := Nat.mul_le_mul_left B (Nat.le_of_lt hpq)
    have hexp : (B + 1) * (2 * q) = 2 * (B * q) + 2 * q := by ring
    omega
  have := (Nat.div_lt_iff_lt_mul h2q).2 hlt
  omega

theorem jitteredDelay_ge (B p q : Nat) (hq : 0 < q) (heven : 2 ∣ B) :
    B / 2 ≤ jitteredDelay B p q := by
  obtain ⟨t, ht⟩ := heven
  subst ht
  unfold jitteredDelay
  have h2q : 0 < 2 * q := by omega
  rw [Nat.mul_div_cancel_left t (by omega : 0 < 2)]
  rw [Nat.le_div_iff_mul_le h2q]
  have hmul : 2 * t * (q + p) = 2 * t * q + 2 * t * p := Nat.mul_add _ q p
  have hexp : t * (2 * q) = 2 * t * q := by ring
  omega

theorem cappedBase_even (a : Nat) : 2 ∣ cappedBase a := by
  unfold cappedBase BASE_RECONNECT_DELAY_MS MAX_RECONNECT_DELAY_MS
  rw [Nat.min_def]
  split
  · exact ⟨500 * 2 ^ a, by ring⟩
  · exact ⟨30000, rfl⟩

theorem cappedBase_le_max (a : Nat) : cappedBase a ≤ MAX_RECONNECT_DELAY_MS :=
  Nat.min_le_right _ _

theorem cappedBase_uncapped (a : Nat)
    (h : BASE_RECONNECT_DELAY_MS * 2 ^ a ≤ MAX_RECONNECT_DELAY_MS) :
    cappedBase a = BASE_RECONNECT_DELAY_MS * 2 ^ a :=
  Nat.min_eq_left h

/-- C9 counterexample.  With legitimate jitter draws (999/1000 on the
first close, 0 on the second) the first two scheduled delays are both
exactly 1000 ms: 1000 * 0.9995 rounds up to 1000 and 2000 * 0.5 + 1/2
rounds down to 1000.  The scheduled delays of consecutive close events
are therefore not strictly increasing. -/
theorem reconnect_delays_not_strictly_increasing :
    999 < 1000 ∧ (0 : Nat) < 1000 ∧ (0 : Nat) < 1 ∧
    (scheduleReconnect { reconnectAttempts := 0 } 999 1000).2 = 1000 ∧
    (scheduleReconnect
      (scheduleReconnect { reconnectAttempts := 0 } 999 1000).1 0 1).2 = 1000 ∧
    ¬((scheduleReconnect { reconnectAttempts := 0 } 999 1000).2
      < (scheduleReconnect
        (scheduleReconnect { reconnectAttempts := 0 } 999 1000).1 0 1).2) := by
  decide

/-- C9 (amended).  For three consecutive non-suppressed close events
whose exponential bases stay at or below the configured maximum, the
three scheduled delays are non-decreasing (strict increase can fail at
jitter boundaries, see the counterexample), each delay is bounded by
the configured maximum and lies within the declared jitter range
[base/2, base]; equivalently the first delay is the capped exponential
base multiplied by a rational factor in [1/2, 1].  The attempt counter
increments on every scheduled reconnect and resets to zero on a
successful open. -/
theorem reconnect_backoff_bounded_nondecreasing
    (a p0 q0 p1 q1 p2 q2 : Nat)
    (hq0 : 0 < q0) (hp0 : p0 < q0) (hq1 : 0 < q1) (hp1 : p1 < q1)
    (hq2 : 0 < q2) (hp2 : p2 < q2)
    (hcap : BASE_RECONNECT_DELAY_MS * 2 ^ (a + 2) ≤ MAX_RECONNECT_DELAY_MS) :
    (scheduleReconnect { reconnectAttempts := a } p0 q0).1.reconnectAttempts = a + 1 ∧
    (scheduleReconnect (scheduleReconnect { reconnectAttempts := a } p0 q0).1
      p1 q1).1.reconnectAttempts = a + 2 ∧
    (scheduleReconnect (scheduleReconnect
      (scheduleReconnect { reconnectAttempts := a } p0 q0).1 p1 q1).1
      p2 q2).1.reconnectAttempts = a + 3 ∧
    (scheduleReconnect { reconnectAttempts := a } p0 q0).2
      ≤ (scheduleReconnect (scheduleReconnect { reconnectAttempts := a } p0 q0).1
        p1 q1).2 ∧
    (scheduleReconnect (scheduleReconnect { reconnectAttempts := a } p0 q0).1
      p1 q1).2
      ≤ (scheduleReconnect (scheduleReconnect
        (scheduleReconnect { reconnectAttempts := a } p0 q0).1 p1 q1).1 p2 q2).2 ∧
    cappedBase a / 2 ≤ (scheduleReconnect { reconnectAttempts := a } p0 q0).2 ∧
    (scheduleReconnect { reconnectAttempts := a } p0 q0).2 ≤ cappedBase a ∧
    cappedBase (a + 1) / 2 ≤ (scheduleReconnect
      (scheduleReconnect { reconnectAttempts := a } p0 q0).1 p1 q1).2 ∧
    (scheduleReconnect (scheduleReconnect { reconnectAttempts := a } p0 q0).1
      p1 q1).2 ≤ cappedBase (a + 1) ∧
    cappedBase (a + 2) / 2 ≤ (scheduleReconnect (scheduleReconnect
      (scheduleReconnect { reconnectAttempts := a } p0 q0).1 p1 q1).1 p2 q2).2 ∧
    (scheduleReconnect (scheduleReconnect
      (scheduleReconnect { reconnectAttempts := a } p0 q0).1 p1 q1).1 p2 q2).2
      ≤ cappedBase (a + 2) ∧
    (scheduleReconnect { reconnectAttempts := a } p0 q0).2
      ≤ MAX_RECONNECT_DELAY_MS ∧
    (scheduleReconnect (scheduleReconnect { reconnectAttempts := a } p0 q0).1
      p1 q1).2 ≤ MAX_RECONNECT_DELAY_MS ∧
    (scheduleReconnect (scheduleReconnect
      (scheduleReconnect { reconnectAttempts := a } p0 q0).1 p1 q1).1 p2 q2).2
      ≤ MAX_RECONNECT_DELAY_MS ∧
    (∃ f : ℚ, 1 / 2 ≤ f ∧ f ≤ 1 ∧
      ((scheduleReconnect { reconnectAttempts := a } p0 q0).2 : ℚ)
        = (cappedBase a : ℚ) * f) ∧
    (handleOpen (scheduleReconnect (scheduleReconnect
      (scheduleReconnect { reconnectAttempts := a } p0 q0).1 p1 q1).1
      p2 q2).1).reconnectAttempts = 0 := by
  have hd0 : (scheduleReconnect { reconnectAttempts := a } p0 q0).2
      = jitteredDelay (cappedBase a) p0 q0 := rfl
  have hd1 : (scheduleReconnect (scheduleReconnect { reconnectAttempts := a }
      p0 q0).1 p1 q1).2 = jitteredDelay (cappedBase (a + 1)) p1 q1 := rfl
  have hd2 : (scheduleReconnect (scheduleReconnect (scheduleReconnect
      { reconnectAttempts := a } p0 q0).1 p1 q1).1 p2 q2).2
      = jitteredDelay (cappedBase (a + 2)) p2 q2 := rfl
  have hcb0 : cappedBase a = BASE_RECONNECT_DELAY_MS * 2 ^ a :=
    cappedBase_uncapped a (le_trans
      (Nat.mul_le_mul_left _ (Nat.pow_le_pow_right (by omega) (by omega))) hcap)
  have hcb1 : cappedBase (a + 1) = BASE_RECONNECT_DELAY_MS * 2 ^ (a + 1) :=
    cappedBase_uncapped (a + 1) (le_trans
      (Nat.mul_le_mul_left _ (Nat.pow_le_pow_right (by omega) (by omega))) hcap)
  have hcb2 : cappedBase (a + 2) = BASE_RECONNECT_DELAY_MS * 2 ^ (a + 2) :=
    cappedBase_uncapped (a + 2) hcap
  have hhalf1 : cappedBase (a + 1) / 2 = cappedBase a := by
    rw [hcb0, hcb1]
    have hx : BASE_RECONNECT_DELAY_MS * 2 ^ (a + 1)
        = (BASE_RECONNECT_DELAY_MS * 2 ^ a) * 2 := by ring
    rw [hx, Nat.mul_div_cancel _ (by omega : 0 < 2)]
  have hhalf2 : cappedBase (a + 2) / 2 = cappedBase (a + 1) := by
    rw [hcb1, hcb2]
    have hx : BASE_RECONNECT_DELAY_MS * 2 ^ (a + 2)
        = (BASE_RECONNECT_DELAY_MS * 2 ^ (a + 1)) * 2 := by ring
    rw [hx, Nat.mul_div_cancel _ (by omega : 0 < 2)]
  have hb0le := jitteredDelay_le (cappedBase a) p0 q0 hq0 hp0
  have hb0ge := jitteredDelay_ge (cappedBase a) p0 q0 hq0 (cappedBase_even a)
  have hb1le := jitteredDelay_le (cappedBase (a + 1)) p1 q1 hq1 hp1
  have hb1ge := jitteredDelay_ge (cappedBase (a + 1)) p1 q1 hq1 (cappedBase_even (a + 1))
  have hb2le := jitteredDelay_le (cappedBase (a + 2)) p2 q2 hq2 hp2
  have hb2ge := jitteredDelay_ge (cappedBase (a + 2)) p2 q2 hq2 (cappedBase_even (a + 2))
  have hstep1 : jitteredDelay (cappedBase a) p0 q0
      ≤ jitteredDelay (cappedBase (a + 1)) p1 q1 := by
    calc jitteredDelay (cappedBase a) p0 q0 ≤ cappedBase a := hb0le
      _ = cappedBase (a + 1) / 2 := hhalf1.symm
      _ ≤ jitteredDelay (cappedBase (a + 1)) p1 q1 := hb1ge
  have hstep2 : jitteredDelay (cappedBase (a + 1)) p1 q1
      ≤ jitteredDelay (cappedBase (a + 2)) p2 q2 := by
    calc jitteredDelay (cappedBase (a + 1)) p1 q1 ≤ cappedBase (a + 1) := hb1le
      _ = cappedBase (a + 2) / 2 := hhalf2.symm
      _ ≤ jitteredDelay (cappedBase (a + 2)) p2 q2 := hb2ge
  have hBpos : 0 < cappedBase a := by
    rw [hcb0]
    unfold BASE_RECONNECT_DELAY_MS
    positivity
  have hBQpos : (0 : ℚ) < (cappedBase a : ℚ) := by
    exact_mod_cast hBpos
  have hfactor : ∃ f : ℚ, 1 / 2 ≤ f ∧ f ≤ 1 ∧
      ((jitteredDelay (cappedBase a) p0 q0 : ℚ)
        = (cappedBase a : ℚ) * f) := by
    refine ⟨(jitteredDelay (cappedBase a) p0 q0 : ℚ) / (cappedBase a : ℚ),
      ?_, ?_, ?_⟩
    · rw [le_div_iff hBQpos]
      obtain ⟨t, ht⟩ := cappedBase_even a
      have htle : t ≤ jitteredDelay (cappedBase a) p0 q0 := by
        have := hb0ge
        rw [ht] at this ⊢
        rwa [Nat.mul_div_cancel_left t (by omega : 0 < 2)] at this
      have hcast : (cappedBase a : ℚ) = 2 * (t : ℚ) := by
        rw [ht]
        push_cast
        ring
      have htle2 : (t : ℚ) ≤ (jitteredDelay (cappedBase a) p0 q0 : ℚ) := by
        exact_mod_cast htle
      rw [hcast]
      linarith
    · rw [div_le_one hBQpos]
      exact_mod_cast hb0le
    · rw [mul_comm, div_mul_cancel₀ _ (ne_of_gt hBQpos)]
  refine ⟨rfl, rfl, rfl, ?_, ?_, ?_, ?_, ?_, ?_, ?_, ?_, ?_, ?_, ?_, ?_, rfl⟩
  · rw [hd0, hd1]
    exact hstep1
  · rw [hd1, hd2]
    exact hstep2
  · rw [hd0]
    exact hb0ge
  · rw [hd0]
    exact hb0le
  · rw [hd1]
    exact hb1ge
  · rw [hd1]
    exact hb1le
  · rw [hd2]
    exact hb2ge
  · rw [hd2]
    exact hb2le
  · rw [hd0]
    exact le_trans hb0le (cappedBase_le_max a)
  · rw [hd1]
    exact le_trans hb1le (cappedBase_le_max (a + 1))
  · rw [hd2]
    exact le_trans hb2le (cappedBase_le_max (a + 2))
  · rw [hd0]
    exact hfactor

/-- Witness for the amended C9 at attempt 0 with jitter draws 0, 1/2
and 999/1000. -/
theorem reconnect_backoff_bounded_nondecreasing_witness :
    ((0 : Nat) < 1 ∧ (0 : Nat) < 1 ∧ (0 : Nat) < 2 ∧ (1 : Nat) < 2 ∧
      (0 : Nat) < 1000 ∧ (999 : Nat) < 1000 ∧
      BASE_RECONNECT_DELAY_MS * 2 ^ (0 + 2) ≤ MAX_RECONNECT_DELAY_MS) ∧
    ((scheduleReconnect { reconnectAttempts := 0 } 0 1).1.reconnectAttempts = 0 + 1 ∧
      (scheduleReconnect (scheduleReconnect { reconnectAttempts := 0 } 0 1).1
        1 2).1.reconnectAttempts = 0 + 2 ∧
      (scheduleReconnect (scheduleReconnect
        (scheduleReconnect { reconnectAttempts := 0 } 0 1).1 1 2).1
        999 1000).1.reconnectAttempts = 0 + 3 ∧
      (scheduleReconnect { reconnectAttempts := 0 } 0 1).2
        ≤ (scheduleReconnect (scheduleReconnect { reconnectAttempts := 0 } 0 1).1
          1 2).2 ∧
      (scheduleReconnect (scheduleReconnect { reconnectAttempts := 0 } 0 1).1
        1 2).2
        ≤ (scheduleReconnect (scheduleReconnect
          (scheduleReconnect { reconnectAttempts := 0 } 0 1).1 1 2).1 999 1000).2 ∧
      cappedBase 0 / 2 ≤ (scheduleReconnect { reconnectAttempts := 0 } 0 1).2 ∧
      (scheduleReconnect { reconnectAttempts := 0 } 0 1).2 ≤ cappedBase 0 ∧
      cappedBase (0 + 1) / 2 ≤ (scheduleReconnect
        (scheduleReconnect { reconnectAttempts := 0 } 0 1).1 1 2).2 ∧
      (scheduleReconnect (scheduleReconnect { reconnectAttempts := 0 } 0 1).1
        1 2).2 ≤ cappedBase (0 + 1) ∧
      cappedBase (0 + 2) / 2 ≤ (scheduleReconnect (scheduleReconnect
        (scheduleReconnect { reconnectAttempts := 0 } 0 1).1 1 2).1 999 1000).2 ∧
      (scheduleReconnect (scheduleReconnect
        (scheduleReconnect { reconnectAttempts := 0 } 0 1).1 1 2).1 999 1000).2
        ≤ cappedBase (0 + 2) ∧
      (scheduleReconnect { reconnectAttempts := 0 } 0 1).2
        ≤ MAX_RECONNECT_DELAY_MS ∧
      (scheduleReconnect (scheduleReconnect { reconnectAttempts := 0 } 0 1).1
        1 2).2 ≤ MAX_RECONNECT_DELAY_MS ∧
      (scheduleReconnect (scheduleReconnect
        (scheduleReconnect { reconnectAttempts := 0 } 0 1).1 1 2).1 999 1000).2
        ≤ MAX_RECONNECT_DELAY_MS ∧
      (∃ f : ℚ, 1 / 2 ≤ f ∧ f ≤ 1 ∧
        ((scheduleReconnect { reconnectAttempts := 0 } 0 1).2 : ℚ)
          = (cappedBase 0 : ℚ) * f) ∧
      (handleOpen (scheduleReconnect (scheduleReconnect
        (scheduleReconnect { reconnectAttempts := 0 } 0 1).1 1 2).1
        999 1000).1).reconnectAttempts = 0) :=
  ⟨⟨by decide, by decide, by decide, by decide, by decide, by decide, by decide⟩,
    reconnect_backoff_bounded_nondecreasing 0 0 1 1 2 999 1000
      (by decide) (by decide) (by decide) (by decide) (by decide) (by decide)
      (by decide)⟩
